import Mathlib

/-!
# Verification of the OldMan object-linked-data mapper core

Shallow embedding, in Lean 4, of the parts of the OldMan repository that the
frozen claims are about:

* `src/ld_orm/attribute.py` — the attribute runtime (`LDAttribute.check_value`,
  `LDAttribute.__set__`, change tracking, SPARQL line serialisation);
* `src/oldman/model/property.py` — `OMProperty` attribute-metadata freezing;
* `src/oldman/management/registry.py` — `ModelRegistry.find_models_and_types`;
* `src/oldman/resource/resource.py` — `Resource.delete` cascade, `to_dict`,
  `_check_and_update_types`, `is_blank_node`;
* `src/oldman/client/session.py` — `DefaultClientSession` identity stability
  (its tracker, `oldman.core.session.tracker.BasicResourceTracker`, is not in
  the sources and is modelled from the spec where indicated).

Python dynamic values are embedded as explicit inductive types; Python
exceptions as `Except`; per-instance mutable state as explicit state records.
-/

/-- Decidable equality for `Except` results (used to evaluate the embedded
operations on concrete inputs). -/
instance {ε α : Type} [DecidableEq ε] [DecidableEq α] : DecidableEq (Except ε α)
  | .error e, .error f =>
    if h : e = f then .isTrue (by rw [h]) else .isFalse (fun hh => h (by injection hh))
  | .error _, .ok _ => .isFalse (fun h => Except.noConfusion h)
  | .ok _, .error _ => .isFalse (fun h => Except.noConfusion h)
  | .ok a, .ok b =>
    if h : a = b then .isTrue (by rw [h]) else .isFalse (fun hh => h (by injection hh))

namespace LdOrm

/-- A Python value assignable to an `LDAttribute`
(`src/ld_orm/attribute.py`): `None`, a scalar (literal or IRI, kept abstract
as its string form), or a container (`set`, `list`, `dict`) of scalars. -/
inductive PyVal where
  | none : PyVal
  | scalar (s : String) : PyVal
  | set (elems : List String) : PyVal
  | list (elems : List String) : PyVal
  | dict (entries : List (String × String)) : PyVal
deriving DecidableEq, Repr

/-- Python `==` on embedded values: sets compare by membership, dicts by their
key-value mapping, lists positionally, scalars by equality. Values of
different kinds are unequal (as in Python for these types). -/
def pyEq : PyVal → PyVal → Bool
  | .none, .none => true
  | .scalar a, .scalar b => a == b
  | .set a, .set b => a.all (fun x => b.contains x) && b.all (fun x => a.contains x)
  | .list a, .list b => a == b
  | .dict a, .dict b =>
      (a.all fun p => b.lookup p.1 == some p.2) && (b.all fun p => a.lookup p.1 == some p.2)
  | _, _ => false

/-- JSON-LD container declarations accepted by `LDAttribute.__init__`
(`@language` / `@index` raise `NotImplementedError` there, so they never occur
on a constructed attribute). -/
inductive JsonLdContainer where
  | atSet : JsonLdContainer
  | atList : JsonLdContainer
deriving DecidableEq, Repr

/-- Errors of the attribute runtime. The first three are all raised as
`LDAttributeTypeCheckError` in the source (the spec calls it
`AttributeTypeError`); `unsupported` stands for `NotImplementedError`. -/
inductive AttrError where
  /-- `check_value`: the value is not an instance of the container type
  required by `CONTAINER_REQUIREMENTS[self.container]`. -/
  | containerMismatch : AttrError
  /-- `_check_container`: a `list` was assigned while no `@list` container is
  declared in the context. -/
  | undeclaredList : AttrError
  /-- a `ValueFormatError` from `value_format.check_value`, re-raised as a
  type-check error. -/
  | badFormat : AttrError
  /-- `NotImplementedError` (e.g. serialising an untyped literal). -/
  | unsupported : AttrError
deriving DecidableEq, Repr

/-- One `LDAttribute` (`src/ld_orm/attribute.py`): the metadata fields used by
`check_value` / `__set__` / serialisation. `formatOk` abstracts
`self._value_format.check_value` (the `ld_orm` value-format module is out of
scope; `true` = no `ValueFormatError`), `xsdify` abstracts
`value_format.xsdify_value`. Reversed attributes are rejected by
`LDAttribute.__init__` (`NotImplementedError`), so no `reversed` field is
needed. -/
structure LDAttribute where
  name : String
  container : Option JsonLdContainer
  propertyUri : String
  jsonldType : Option String
  language : Option String
  formatOk : String → Bool
  xsdify : String → String

/-- Is the value a Python `set`? -/
def isSetVal : PyVal → Bool
  | .set _ => true
  | _ => false

/-- Is the value a Python `list`? -/
def isListVal : PyVal → Bool
  | .list _ => true
  | _ => false

/-- Is the value a Python container (`set`, `list` or `dict`)? -/
def isContainerVal : PyVal → Bool
  | .set _ => true
  | .list _ => true
  | .dict _ => true
  | _ => false

/-- `CONTAINER_REQUIREMENTS` check of `LDAttribute.check_value`:
`'@set' ↦ set`, `'@list' ↦ list`, `None ↦ object` — and *every* Python value
is an instance of `object`, so an attribute without declared container passes
this test for any value. -/
def requiredContainerOk (a : LDAttribute) (v : PyVal) : Bool :=
  match a.container with
  | some .atSet => isSetVal v
  | some .atList => isListVal v
  | Option.none => true

/-- The scalars contained in a container value (`value.values()` for a dict,
the elements for a set or list). -/
def containedScalars : PyVal → List String
  | .set l => l
  | .list l => l
  | .dict es => es.map Prod.snd
  | _ => []

/-- `LDAttribute._check_container`: warns (no error) on an undeclared
container, except that an undeclared `list` raises; then format-checks each
contained scalar. -/
def checkContainer (a : LDAttribute) (v : PyVal) : Except AttrError Unit :=
  if a.container.isNone ∧ isListVal v then .error .undeclaredList
  else if (containedScalars v).all a.formatOk then .ok () else .error .badFormat

/-- `LDAttribute.check_value`: `None` is always allowed; then the
`CONTAINER_REQUIREMENTS` instance check; then container contents or the
scalar are format-checked. -/
def checkValue (a : LDAttribute) (v : PyVal) : Except AttrError Unit :=
  match v with
  | .none => .ok ()
  | v =>
    if ¬ requiredContainerOk a v then .error .containerMismatch
    else if isContainerVal v then checkContainer a v
    else
      match v with
      | .scalar s => if a.formatOk s then .ok () else .error .badFormat
      | _ => .ok ()

/-- Per-instance storage of one attribute: `current` is
`self._data.get(instance)` (a missing entry and a stored `None` are both
`PyVal.none`, as `WeakKeyDictionary.get` returns `None` for both), `former` is
the entry in `self._former_values` (`some PyVal.none` is possible: "May be
None (trick!)"). -/
structure AttrState where
  current : PyVal := .none
  former : Option PyVal := Option.none
deriving DecidableEq, Repr

/-- `LDAttribute.has_new_value`: `instance in self._former_values`. -/
def hasNewValue (st : AttrState) : Bool :=
  st.former.isSome

/-- The "Empty container -> None" step of `LDAttribute.__set__`. -/
def collapseEmpty : PyVal → PyVal
  | .set [] => .none
  | .list [] => .none
  | .dict [] => .none
  | v => v

/-- `LDAttribute.__set__`: checks the value, collapses empty containers to
`None`, snapshots the former value on the first effective change of a commit
cycle (only when no former value is pending and the new value differs from
the current one), then stores the value. -/
def setAttr (a : LDAttribute) (st : AttrState) (v : PyVal) : Except AttrError AttrState :=
  match checkValue a v with
  | .error e => .error e
  | .ok () =>
    let v' := collapseEmpty v
    let st' :=
      if st.former.isNone then
        if ¬ pyEq st.current v' then { st with former := some st.current } else st
      else st
    .ok { st' with current := v' }

/-- `LDAttribute._convert_value_to_turtle`: SPARQL encoding of one scalar. An
attribute that is neither `@id`-typed, nor language-tagged, nor
datatype-typed raises `NotImplementedError`. -/
def convertValueToTurtle (a : LDAttribute) (v : String) : Except AttrError String :=
  if a.jsonldType = some "@id" then .ok (String.append (String.append "<" v) ">")
  else
    match a.language with
    | some lang =>
        .ok (String.append (String.append (String.append "\"" (a.xsdify v)) "\"@") lang)
    | Option.none =>
      match a.jsonldType with
      | some t =>
          .ok (String.append (String.append (String.append (String.append "\"" (a.xsdify v))
               "\"^^<") t) ">")
      | Option.none => .error .unsupported

/-- Turn the stored value into the list of scalars serialised by
`serialize_values_into_lines` (`vs = values if isinstance(values, (list, set))
else [values]`). Stored `dict` values would be interpolated as their `repr`
by the source; no claim exercises that path, so it is reported as
unsupported. -/
def scalarsToSerialize : PyVal → Except AttrError (List String)
  | .set l => .ok l
  | .list l => .ok l
  | .scalar s => .ok [s]
  | .dict _ => .error .unsupported
  | .none => .ok []

/-- `LDAttribute.serialize_values_into_lines`: `None` gives no line; a
`@list` value becomes a single RDF collection `( v1 v2 ... )`; each serialised
value yields one `{0} <property> value .` line (the `{0}` placeholder is
written `\x7b0\x7d` here). Constructed attributes are never reversed (see
`LDAttribute`). -/
def serializeValuesIntoLines (a : LDAttribute) (values : PyVal) : Except AttrError String :=
  match values with
  | .none => .ok ""
  | v =>
    match scalarsToSerialize v with
    | .error e => .error e
    | .ok vs =>
      match (vs.mapM (convertValueToTurtle a)) with
      | .error e => .error e
      | .ok converted =>
        let serialized : List String :=
          if a.container = some .atList then
            [String.append (String.append "( " (String.intercalate " " converted)) " )"]
          else converted
        .ok (serialized.foldl
              (fun lines v =>
                String.append lines
                  (String.append (String.append (String.append "  \x7b0\x7d <" a.propertyUri)
                    (String.append "> " v)) " .\n"))
              "")

/-- The per-attribute loop of `Model._save` (`src/ld_orm/model.py`): an
attribute with no new value is skipped (`continue`) and contributes nothing
to the DELETE and INSERT line blocks; a changed attribute pops its former
value (clearing the former-value slot), serialises it into the DELETE lines
and its current value into the INSERT lines. Returns
`(former_lines, new_lines, updated per-attribute states)`. The object-cascade
bookkeeping in the same loop is also guarded by `has_new_value` and is out of
scope here. -/
def saveCollectLines :
    List (LDAttribute × AttrState) →
      Except AttrError (String × String × List (LDAttribute × AttrState))
  | [] => .ok ("", "", [])
  | (a, st) :: rest =>
    if hasNewValue st then
      match serializeValuesIntoLines a (st.former.getD .none) with
      | .error e => .error e
      | .ok fl =>
        match serializeValuesIntoLines a st.current with
        | .error e => .error e
        | .ok nl =>
          match saveCollectLines rest with
          | .error e => .error e
          | .ok (fls, nls, sts) =>
            .ok (String.append fl fls, String.append nl nls,
                 (a, { st with former := Option.none }) :: sts)
    else
      match saveCollectLines rest with
      | .error e => .error e
      | .ok (fls, nls, sts) => .ok (fls, nls, (a, st) :: sts)

end LdOrm

namespace OldmanProperty

/-- `oldman.common`: a property is an `owl:DatatypeProperty` or an
`owl:ObjectProperty` (`None` = unknown). -/
inductive PropType where
  | datatype : PropType
  | object : PropType
deriving DecidableEq, Repr

/-- Errors raised by `OMProperty` (`src/oldman/model/property.py`). -/
inductive OMError where
  /-- `OMAlreadyGeneratedAttributeError`. -/
  | alreadyGeneratedAttribute : OMError
  /-- `OMInternalError` (reversed mismatch, duplicate attribute name). -/
  | internal : OMError
  /-- `OMPropertyDefTypeError` (conflicting datatype/object declaration). -/
  | propertyDefType : OMError
  /-- `OMAlreadyDeclaredDatatypeError`. -/
  | alreadyDeclaredDatatype : OMError
deriving DecidableEq, Repr

/-- One entry of `OMProperty._tmp_attr_mds` (an `OMAttributeMetadata` without
the back-pointer to the property). -/
structure AttrMd where
  name : String
  language : Option String
  jsonldType : Option String
  container : Option String
  reversed : Bool
deriving DecidableEq, Repr

/-- The mutable state of one `OMProperty`
(`src/oldman/model/property.py`): its declaration fields, the temporary
attribute-metadata list and the generated attribute set. Generated
`OMAttribute` objects are represented by their metadata (`generate_attributes`
builds one attribute per metadata entry, so the generated set is empty exactly
when the metadata list was). `omAttributes = none` is Python
`self._om_attributes = None` (not yet generated). -/
structure OMPropertyState where
  propertyIri : String
  reversed : Bool
  propType : Option PropType
  ranges : List String
  tmpAttrMds : List AttrMd
  omAttributes : Option (List AttrMd)
deriving DecidableEq, Repr

/-- Python truthiness of `self._om_attributes`: `None` and the *empty set*
are both falsy; only a non-empty generated set is truthy. -/
def omAttributesTruthy (st : OMPropertyState) : Bool :=
  match st.omAttributes with
  | Option.none => false
  | some l => !l.isEmpty

/-- The `OMProperty.type` setter: a second, different declaration raises
`OMPropertyDefTypeError`; re-declaring the same type is a no-op. -/
def setPropType (st : OMPropertyState) (pt : PropType) : Except OMError OMPropertyState :=
  match st.propType with
  | some t => if t ≠ pt then .error .propertyDefType else .ok st
  | Option.none => .ok { st with propType := some pt }

/-- `OMProperty.default_datatype`: the first declared range if the property is
a datatype property with at least one range. -/
def defaultDatatype (st : OMPropertyState) : Option String :=
  if st.propType = some .datatype ∧ st.ranges.length ≥ 1 then st.ranges.head?
  else Option.none

/-- `OMProperty.add_attribute_metadata` (lines 191–236): refuses when the
generated attribute set is truthy; checks the reversed flag; resolves the
JSON-LD type against the property type and ranges; refuses duplicate names;
appends the metadata. -/
def addAttributeMetadata (st : OMPropertyState) (name : String) (jsonldType : Option String)
    (language : Option String) (container : Option String) (reversed : Bool) :
    Except OMError OMPropertyState :=
  if omAttributesTruthy st then .error .alreadyGeneratedAttribute
  else if st.reversed ≠ reversed then .error .internal
  else
    let step : Except OMError (OMPropertyState × Option String) :=
      match jsonldType with
      | some t =>
        if t = "@id" then
          match setPropType st .object with
          | .error e => .error e
          | .ok st' => .ok (st', some t)
        else
          match setPropType st .datatype with
          | .error e => .error e
          | .ok st' =>
            if t ∉ st'.ranges ∧ st'.ranges.length ≥ 1 then .error .alreadyDeclaredDatatype
            else .ok (st', some t)
      | Option.none =>
        match st.propType with
        | some .object => .ok (st, some "@id")
        | some .datatype => .ok (st, defaultDatatype st)
        | Option.none =>
          if language = Option.none then .ok (st, some "@id") else .ok (st, Option.none)
    match step with
    | .error e => .error e
    | .ok (st', jt) =>
      if (st'.tmpAttrMds.filter (fun md => md.name = name)).length > 0 then .error .internal
      else
        .ok { st' with tmpAttrMds :=
               st'.tmpAttrMds ++ [⟨name, language, jt, container, reversed⟩] }

/-- `OMProperty.generate_attributes` (lines 238–256): refuses when the
generated attribute set is truthy; otherwise generates one attribute per
pending metadata entry and clears the temporary list. -/
def generateAttributes (st : OMPropertyState) : Except OMError OMPropertyState :=
  if omAttributesTruthy st then .error .alreadyGeneratedAttribute
  else .ok { st with omAttributes := some st.tmpAttrMds, tmpAttrMds := [] }

/-- A freshly constructed, non-reversed `OMProperty` with no declared type or
range (`OMProperty.__init__` with default arguments). -/
def freshProperty (iri : String) : OMPropertyState :=
  { propertyIri := iri, reversed := false, propType := Option.none, ranges := []
    tmpAttrMds := [], omAttributes := Option.none }

end OldmanProperty

namespace Registry

/-- Error of `ModelRegistry.register`
(`src/oldman/management/registry.py`): `AlreadyAllocatedModelError`. -/
inductive RegError where
  | alreadyAllocated : RegError
deriving DecidableEq, Repr

/-- A registered model as the registry sees it
(`src/oldman/management/registry.py` uses only these fields of a model):
`classIri = none` is the default model's `class_iri = None`; `ancestryIris` is
the model's top-down ancestry (the class itself included). -/
structure RegModel where
  classIri : Option String
  name : String
  ancestryIris : List String
deriving DecidableEq, Repr

/-- Lexicographic order on char lists (by code point). -/
def charsLe : List Char → List Char → Bool
  | [], _ => true
  | _ :: _, [] => false
  | a :: as, b :: bs => if a == b then charsLe as bs else Nat.blt a.toNat b.toNat

/-- Sort key embedding `Option String` into a char list (`none` first). -/
def optKeyChars : Option String → List Char
  | Option.none => []
  | some s => 'a' :: s.toList

/-- Total order on type references used for canonicalisation. -/
def optRefLe (a b : Option String) : Bool :=
  charsLe (optKeyChars a) (optKeyChars b)

/-- The canonical tuple of a Python type set: CPython iterates two equal sets
in the same order within a process, so `tuple(set(x))` is a deterministic
function of the elements of `x`; it is modelled by deduplication followed by
a fixed total order. -/
def canonTypeKey (l : List (Option String)) : List (Option String) :=
  (l.dedup).insertionSort (fun a b => optRefLe a b = true)

/-- Python dict assignment `d[k] = v` on an association list with unique
keys. -/
def insertCache {α β : Type} [DecidableEq α] (c : List (α × β)) (k : α) (v : β) :
    List (α × β) :=
  (k, v) :: c.filter (fun e => e.1 ≠ k)

/-- The state of a `ModelRegistry`: `_model_classes` and `_model_names` in
registration order, `_model_descendants` (only IRIs), and `_type_set_cache`
keyed by the canonical tuple of a type set. -/
structure RegistryState where
  modelClasses : List (Option String × RegModel)
  modelNames : List (String × RegModel)
  defaultModelName : String
  modelDescendants : List (Option String × List (Option String))
  typeSetCache : List (List (Option String) × (List RegModel × List (Option String)))
deriving DecidableEq, Repr

/-- `ModelRegistry.register`: refuses an already-bound class IRI or short
name; records as descendants of the new class the *already registered* models
whose ancestry contains it (`# The new is not yet in this list` — models
registered later are never added); clears the type-set cache.
`None` (the default model's class IRI) is never an element of an ancestry
list of strings, so the default model records no descendants and is never
recorded as one. -/
def register (st : RegistryState) (model : RegModel) : Except RegError RegistryState :=
  if (st.modelClasses.lookup model.classIri).isSome then .error .alreadyAllocated
  else if (st.modelNames.lookup model.name).isSome then .error .alreadyAllocated
  else
    let subModelIris : List (Option String) :=
      (st.modelClasses.map Prod.snd).filterMap fun m =>
        match model.classIri with
        | some c => if c ∈ m.ancestryIris then some m.classIri else Option.none
        | Option.none => Option.none
    .ok { st with
          modelDescendants := insertCache st.modelDescendants model.classIri subModelIris
          modelClasses := st.modelClasses ++ [(model.classIri, model)]
          modelNames := st.modelNames ++ [(model.name, model)]
          typeSetCache := [] }

/-- `self._model_names[self._default_model_name]` (a `KeyError` — impossible
once the default model is registered — is modelled as the empty list). -/
def defaultModels (st : RegistryState) : List RegModel :=
  match st.modelNames.lookup st.defaultModelName with
  | some m => [m]
  | Option.none => []

/-- `ModelRegistry._find_leaf_models`: keeps the types that are registered
model classes none of whose *recorded* descendants is also in the type set;
falls back to the default model when no such type exists
(`_sort_leaf_models` is the identity). -/
def findLeafModels (st : RegistryState) (typeSet : List (Option String)) : List RegModel :=
  let leafs := typeSet.filterMap fun t =>
    match st.modelDescendants.lookup t with
    | some descendants =>
        if (descendants.inter typeSet).isEmpty then st.modelClasses.lookup t else Option.none
    | Option.none => Option.none
  if leafs.isEmpty then defaultModels st else leafs

/-- `ModelRegistry.find_models_and_types` (lines 57–81): an empty type set
gives the default model and no types; otherwise the canonical type set is
looked up in the cache; on a miss the leaf models are computed, the returned
types are `leaf_model_iris + independent_class_iris + ancestry_class_iris`,
and the `(models, types)` pair is cached under the canonical tuple of the
input set *and* of the returned types. Returns the pair and the new registry
state. -/
def findModelsAndTypes (st : RegistryState) (typeSet : List (Option String)) :
    (List RegModel × List (Option String)) × RegistryState :=
  if typeSet.length = 0 then ((defaultModels st, []), st)
  else
    let key := canonTypeKey typeSet
    match st.typeSetCache.lookup key with
    | some pair => (pair, st)
    | Option.none =>
      let leafModels := findLeafModels st key
      let leafModelIris := leafModels.map (fun m => m.classIri)
      let ancestryClassIris := canonTypeKey
        (((leafModels.flatMap (fun m => m.ancestryIris)).map some).filter
          (fun t => t ∉ leafModelIris))
      let independentClassIris :=
        key.filter (fun t => t ∉ leafModelIris ∧ t ∉ ancestryClassIris)
      let types := leafModelIris ++ independentClassIris ++ ancestryClassIris
      let pair := (leafModels, types)
      let cache1 := insertCache st.typeSetCache key pair
      let cache2 := insertCache cache1 (canonTypeKey types) pair
      (pair, { st with typeSetCache := cache2 })

/-- The pair computed by the cache-miss branch of `find_models_and_types`
(same lets as there, for stating its unfolding). -/
def computedPair (st : RegistryState) (typeSet : List (Option String)) :
    List RegModel × List (Option String) :=
  let key := canonTypeKey typeSet
  let leafModels := findLeafModels st key
  let leafModelIris := leafModels.map (fun m => m.classIri)
  let ancestryClassIris := canonTypeKey
    (((leafModels.flatMap (fun m => m.ancestryIris)).map some).filter
      (fun t => t ∉ leafModelIris))
  let independentClassIris :=
    key.filter (fun t => t ∉ leafModelIris ∧ t ∉ ancestryClassIris)
  (leafModels, leafModelIris ++ independentClassIris ++ ancestryClassIris)

/-- The registry state after the cache-miss branch of
`find_models_and_types` stored the computed pair under both keys. -/
def stateAfterMiss (st : RegistryState) (typeSet : List (Option String)) : RegistryState :=
  { st with typeSetCache :=
      (insertCache
        (insertCache st.typeSetCache (canonTypeKey typeSet) (computedPair st typeSet))
        (canonTypeKey (computedPair st typeSet).2) (computedPair st typeSet)) }

/-- The registry as initialised by the model manager: the default model (and
nothing else) is registered. -/
def initialRegistry (defaultModel : RegModel) : RegistryState :=
  { modelClasses := [(defaultModel.classIri, defaultModel)]
    modelNames := [(defaultModel.name, defaultModel)]
    defaultModelName := defaultModel.name
    modelDescendants := [(defaultModel.classIri, [])]
    typeSetCache := [] }

end Registry

namespace OldmanResource

/-- Does `hay` start with `needle`? (Python `in` / `str.startswith` helper.) -/
def charsLeadWith : List Char → List Char → Bool
  | [], _ => true
  | _ :: _, [] => false
  | n :: ns, h :: hs => n == h && charsLeadWith ns hs

/-- Python's substring test `needle in hay`. -/
def charsContain (needle : List Char) : List Char → Bool
  | [] => needle.isEmpty
  | h :: t => charsLeadWith needle (h :: t) || charsContain needle t

/-- Split at the first occurrence of `sep`: `some (before, after)` or `none`
when `sep` does not occur. -/
def splitAtSub (sep : List Char) : List Char → Option (List Char × List Char)
  | [] => if sep.isEmpty then some ([], []) else Option.none
  | h :: t =>
    if charsLeadWith sep (h :: t) then some ([], (h :: t).drop sep.length)
    else
      match splitAtSub sep t with
      | some (pre, post) => some (h :: pre, post)
      | Option.none => Option.none

/-- The chars after the last occurrence of `c` (the whole list when `c` does
not occur). -/
def charsAfterLast (c : Char) (l : List Char) : List Char :=
  (l.reverse.takeWhile (fun x => x ≠ c)).reverse

/-- The `(hostname, path)` part of Python's `urlparse`, restricted to the IRIs
the library handles: for `scheme://netloc/path...` the hostname is the netloc
lowered, without user-info and port, and the path is the rest; an input
without `://` has no hostname and is all path. -/
def hostnameAndPath (iri : String) : Option String × String :=
  match splitAtSub "://".toList iri.toList with
  | Option.none => (Option.none, iri)
  | some (_, after) =>
    let netloc := after.takeWhile (fun c => c ≠ '/')
    let path := after.drop netloc.length
    let hostPort := charsAfterLast '@' netloc
    let host := hostPort.takeWhile (fun c => c ≠ ':')
    (some (String.mk (host.map Char.toLower)), String.mk path)

/-- `oldman.resource.resource.is_blank_node` (lines 765–774): the IRI is a
locally skolemised blank node iff its path contains `/.well-known/genid/` and
its hostname is `localhost`. -/
def isBlankNode (iri : String) : Bool :=
  let hp := hostnameAndPath iri
  charsContain "/.well-known/genid/".toList hp.2.toList && hp.1 == some "localhost"

/-- `Resource.hashless_iri`: `self._id.split('#')[0]` — the IRI up to the
first `#`. -/
def hashlessIri (iri : String) : String :=
  String.mk (iri.toList.takeWhile (fun c => c ≠ '#'))

/-- A resource as `Resource.delete` sees it: its IRI and, for each
object-property attribute, the IRIs of the resources its current value holds
(a single value is a one-element list; datatype attributes take no part in
the cascade). Resource references are by IRI, resolved in a heap, which
models Python object references. -/
structure DResource where
  id : String
  objAttrs : List (List String)
deriving DecidableEq, Repr

/-- `oldman.resource.resource.should_delete_resource` (lines 777–785): a
related resource is cascade-deleted iff it exists and is a blank node. The
source's own TODO — `make sure these blank nodes are not referenced somewhere
else` — records that no referenced-elsewhere check is performed. -/
def shouldDeleteResource (r : Option DResource) : Bool :=
  match r with
  | some obj => isBlankNode obj.id
  | Option.none => false

/-- Resolve an IRI in the heap (Python: the attribute value already holds the
object; the claims only use closed heaps, where every reference resolves). -/
def heapFind (heap : List DResource) (iri : String) : Option DResource :=
  heap.find? (fun r => r.id = iri)

/-- The set of resource IRIs removed from the store by `Resource.delete`
(lines 394–424), in deletion order: for every object attribute, every target
satisfying `should_delete_resource` is deleted recursively (targets failing
the test are only evicted from the resource cache), and the resource itself
is deleted last. `fuel` bounds the recursion depth (Python recurses on the
object graph directly; on a cycle of blank nodes the source would not
terminate, but no claim concerns that case and every concrete heap below is
acyclic with depth below its fuel). -/
def collectDeleted (heap : List DResource) : Nat → DResource → List String
  | 0, r => [r.id]
  | fuel + 1, r =>
    (r.objAttrs.flatMap fun targets =>
      targets.flatMap fun t =>
        match heapFind heap t with
        | some obj =>
          if shouldDeleteResource (some obj) then collectDeleted heap fuel obj else []
        | Option.none => []) ++ [r.id]

/-- `Resource._check_and_update_types` (lines 632–659), up to the recomputed
model list: returns whether the type set effectively changes (the caller then
re-runs `find_models_and_types`), or the `OMUnauthorizedTypeChangeError` the
source raises. Additions are checked against the current types alone; on the
removal side, types implicit in the models' ancestry (minus the model class
IRIs themselves) do not count as removals. -/
inductive TypeChangeError where
  | unauthorizedTypeChange : TypeChangeError
deriving DecidableEq, Repr

/-- The `implicit_types` of `_check_and_update_types`: every IRI in the
ancestry of one of the resource's models, minus the models' own class IRIs
(the default model's `class_iri = None` is not a string and drops out of both
sides, as in Python). -/
def implicitTypes (models : List Registry.RegModel) : Finset String :=
  (models.foldr (fun m acc => m.ancestryIris.toFinset ∪ acc) ∅) \
    (models.filterMap (fun m => m.classIri)).toFinset

/-- See `TypeChangeError`. `models` is `self._models`, `currentTypes` is
`set(self._types)`, `newTypes` the `set(full_dict["types"])` of the update. -/
def checkAndUpdateTypes (models : List Registry.RegModel)
    (currentTypes newTypes : Finset String) (allowNewType allowTypeRemoval : Bool) :
    Except TypeChangeError Bool :=
  if newTypes = currentTypes then .ok false
  else
    let additionalTypes := newTypes \ currentTypes
    let step1 : Except TypeChangeError Bool :=
      if additionalTypes ≠ ∅ then
        if ¬ allowNewType then .error .unauthorizedTypeChange else .ok true
      else .ok false
    match step1 with
    | .error e => .error e
    | .ok change =>
      let missingTypes := currentTypes \ newTypes
      if missingTypes ≠ ∅ then
        let removedTypes := missingTypes \ implicitTypes models
        if removedTypes ≠ ∅ then
          if ¬ allowTypeRemoval then .error .unauthorizedTypeChange else .ok true
        else .ok change
      else .ok change

end OldmanResource

namespace OldmanSer

open OldmanResource

/-- A value held by an attribute, as `Resource._convert_value` dispatches on
it: `None`, a literal (kept as its string form), a related `Resource` (held by
IRI and resolved in the heap — the Python attribute value holds the object
itself), or a container (`list`, `set` or generator, which all serialise to a
JSON array). -/
inductive SVal where
  | vnone : SVal
  | lit (s : String) : SVal
  | res (iri : String) : SVal
  | coll (vs : List SVal) : SVal

/-- One attribute of a resource, as `Resource.to_dict` iterates
`_extract_attribute_list()`: its name, its `is_write_only` flag and its
current value for this resource. -/
structure SAttrEntry where
  name : String
  isWriteOnly : Bool
  value : SVal

/-- A `Resource` as the serialiser sees it: IRI, JSON-LD context, types, and
attribute list. Related resources are referenced by IRI and resolved in a
heap (`List SResource`), which models Python object references. -/
structure SResource where
  id : String
  context : String
  types : List String
  attrs : List SAttrEntry

/-- The JSON-like dictionaries `to_dict` builds. `obj` carries, besides its
entries, the IRI of the resource the dict serialises (`srcId`); the Python
dict is the projection that drops this index, which only serves to state
where each resource was inlined. -/
inductive Json where
  | null : Json
  | str (s : String) : Json
  | arr (elems : List Json) : Json
  | obj (srcId : String) (entries : List (String × Json)) : Json

/-- Is this JSON value `null`? (`None` filtering of `to_dict`.) -/
def Json.isNull : Json → Bool
  | .null => true
  | _ => false

/-- Appending the sub-resource's `@context` entry
(`value_dict["@context"] = value._context`). -/
def addContext (j : Json) (ctx : String) : Json :=
  match j with
  | .obj i es => .obj i (es ++ [("@context", .str ctx)])
  | j => j

mutual

/-- `Resource.to_dict` (lines 433–461): adds the caller's IRI to the shared
`ignored_iris` set, converts every non-write-only attribute value (threading
the — mutated in Python — ignored set through the walk), filters `None`
values when `remove_none_values`, and appends the `id` (unless blank) and
`types` entries. `fuel` bounds the depth of resource inlining; the source has
no such bound, and the stabilisation theorem below shows a sufficient fuel
exists for every heap, which is the termination claim. -/
def toDict (heap : List SResource) (removeNone includeCtx : Bool) :
    Nat → SResource → Finset String → Json × Finset String
  | fuel, r, ignored =>
    let ig1 := insert r.id ignored
    let p := convertEntries heap removeNone includeCtx fuel r r.attrs ig1
    let entries1 := if removeNone then p.1.filter (fun e => !e.2.isNull) else p.1
    let entries2 :=
      if ¬ isBlankNode r.id then entries1 ++ [("id", Json.str r.id)] else entries1
    let entries3 :=
      if r.types.length > 0 then entries2 ++ [("types", Json.arr (r.types.map Json.str))]
      else entries2
    (Json.obj r.id entries3, p.2)

/-- The dict comprehension of `to_dict`: one entry per non-write-only
attribute, converting values left to right with the shared ignored set. -/
def convertEntries (heap : List SResource) (removeNone includeCtx : Bool) :
    Nat → SResource → List SAttrEntry → Finset String →
      List (String × Json) × Finset String
  | _, _, [], ig => ([], ig)
  | fuel, self, a :: rest, ig =>
    if a.isWriteOnly then convertEntries heap removeNone includeCtx fuel self rest ig
    else
      let p := convertValue heap removeNone includeCtx fuel self a.value ig
      let q := convertEntries heap removeNone includeCtx fuel self rest p.2
      ((a.name, p.1) :: q.1, q.2)

/-- `Resource._convert_value` (lines 511–534): containers convert
elementwise; a `Resource` value is inlined as its `to_dict` iff its IRI is
not in `ignored_iris` and it is a blank node or co-located with the caller
(appending the sub-context when `include_different_contexts` and the contexts
differ), and otherwise collapses to its IRI string; literals pass through. -/
def convertValue (heap : List SResource) (removeNone includeCtx : Bool) :
    Nat → SResource → SVal → Finset String → Json × Finset String
  | fuel, self, .coll vs, ig =>
    let p := convertColl heap removeNone includeCtx fuel self vs ig
    (Json.arr p.1, p.2)
  | fuel, self, .res i, ig =>
    match heap.find? (fun r => r.id = i) with
    | some value =>
      if i ∉ ig ∧ (isBlankNode i = true ∨ hashlessIri self.id = hashlessIri i) then
        match fuel with
        | 0 => (Json.str i, ig)
        | fuel + 1 =>
          let p := toDict heap removeNone includeCtx fuel value ig
          let d :=
            if includeCtx ∧ value.context ≠ self.context then addContext p.1 value.context
            else p.1
          (d, p.2)
      else (Json.str i, ig)
    | Option.none => (Json.str i, ig)
  | _, _, .lit s, ig => (Json.str s, ig)
  | _, _, .vnone, ig => (Json.null, ig)

/-- The list comprehension of `_convert_value` over a container. -/
def convertColl (heap : List SResource) (removeNone includeCtx : Bool) :
    Nat → SResource → List SVal → Finset String → List Json × Finset String
  | _, _, [], ig => ([], ig)
  | fuel, self, v :: vs, ig =>
    let p := convertValue heap removeNone includeCtx fuel self v ig
    let q := convertColl heap removeNone includeCtx fuel self vs p.2
    (p.1 :: q.1, q.2)

end

mutual

/-- The source IRIs of all `obj` nodes of a JSON tree, in traversal order:
one entry per inlined resource dict (the root included). -/
def objIds : Json → List String
  | .null => []
  | .str _ => []
  | .arr js => objIdsList js
  | .obj i es => i :: objIdsEntries es

/-- `objIds` over a JSON array. -/
def objIdsList : List Json → List String
  | [] => []
  | j :: js => objIds j ++ objIdsList js

/-- `objIds` over dict entries. -/
def objIdsEntries : List (String × Json) → List String
  | [] => []
  | e :: es => objIds e.2 ++ objIdsEntries es

end

end OldmanSer

namespace OldmanSession

/-- A client resource as the session tracks it: its IRI plus a tag
distinguishing distinct Python object instances that carry the same IRI
(e.g. a fresh copy fetched from the store), so that "same instance" is
expressible. -/
structure CResource where
  id : String
  instanceTag : Nat
deriving DecidableEq, Repr

/-- Modelled from the spec: `oldman.core.session.tracker.BasicResourceTracker`
is imported by `src/oldman/client/session.py` but its module is not among the
sources. Per the spec — "Tracks: set of live resources by IRI" and "the same
IRI always maps to the same Resource instance" — the tracker is a map from
IRI to the tracked resource instance. -/
def Tracker : Type := List (String × CResource)

/-- Modelled from the spec: `BasicResourceTracker.find(iri)` returns the
resource tracked under the IRI, if any. -/
def trackerFind (t : Tracker) (iri : String) : Option CResource :=
  List.lookup iri t

/-- Modelled from the spec: `BasicResourceTracker.add(resource)` tracks the
resource under its IRI (map update). -/
def trackerAdd (t : Tracker) (r : CResource) : Tracker :=
  Registry.insertCache t r.id r

/-- Modelled from the spec: `BasicResourceTracker.add_all`. -/
def trackerAddAll (t : Tracker) (rs : List CResource) : Tracker :=
  rs.foldl trackerAdd t

/-- The state of a `DefaultClientSession`
(`src/oldman/client/session.py`): its tracker, and its broker abstracted as
the function from an IRI to the store-built resource `broker.get` would
deliver (the claims do not depend on the broker's internals). -/
structure SessionState where
  tracker : Tracker
  brokerGet : String → Option CResource

/-- `DefaultClientSession.get` (lines 74–88): looks in the tracker first and
returns the tracked instance on a hit; on a miss queries the broker, tracks a
non-`None` result and returns it. (The `iri is None` guard is outside the
embedding: `iri` is always a string here.) -/
def sessionGet (s : SessionState) (iri : String) : Option CResource × SessionState :=
  match trackerFind s.tracker iri with
  | some localResource => (some localResource, s)
  | Option.none =>
    match s.brokerGet iri with
    | some resource => (some resource, { s with tracker := trackerAdd s.tracker resource })
    | Option.none => (Option.none, s)

/-- `DefaultClientSession.new` (lines 60–72): the resource built by the
resource factory (taken as an argument — its construction is out of scope) is
added to the tracker and returned. -/
def sessionNew (s : SessionState) (resource : CResource) : CResource × SessionState :=
  (resource, { s with tracker := trackerAdd s.tracker resource })

/-- `DefaultClientSession.first` (lines 97–105): the broker's result (an
argument, as for `new`) is tracked when not `None`, then returned. -/
def sessionFirst (s : SessionState) (clientResource : Option CResource) :
    Option CResource × SessionState :=
  match clientResource with
  | some r => (some r, { s with tracker := trackerAdd s.tracker r })
  | Option.none => (Option.none, s)

/-- `DefaultClientSession.filter` (lines 90–95) and `sparql_filter` (lines
107–111): the broker's resources are all tracked, then returned. -/
def sessionFilter (s : SessionState) (clientResources : List CResource) :
    List CResource × SessionState :=
  (clientResources, { s with tracker := trackerAddAll s.tracker clientResources })

end OldmanSession

namespace LdOrm

/-- All scalars carried by the value pass the attribute's value format
(hypothesis isolating container-shape checking from format checking). -/
def formatsOk (a : LDAttribute) (v : PyVal) : Bool :=
  match v with
  | .scalar s => a.formatOk s
  | v => (containedScalars v).all a.formatOk

/-- Shape acceptance as the amended claim C7 states it: `@set` requires a
`set` value, `@list` a `list` value; with no declared container a `list` is
rejected but scalars, sets and dicts are accepted; `None` always passes. -/
def specShapeAccepted (container : Option JsonLdContainer) (v : PyVal) : Bool :=
  match container, v with
  | _, .none => true
  | some .atSet, .set _ => true
  | some .atSet, _ => false
  | some .atList, .list _ => true
  | some .atList, _ => false
  | Option.none, .list _ => false
  | Option.none, _ => true

/-- A value format accepting everything (e.g. a permissive string format). -/
def fmtAny : String → Bool := fun _ => true

/-- Fixture: an attribute with no declared container (like `short_bio_en`,
`foaf:name`), with a permissive value format. -/
def attrNoContainerFx : LDAttribute :=
  { name := "short_bio_en", container := Option.none, propertyUri := "http://e.org/bio"
    jsonldType := some "http://www.w3.org/2001/XMLSchema#string", language := some "en"
    formatOk := fmtAny, xsdify := id }

/-- Fixture: an `@set` attribute (like `mboxes` → `foaf:mbox`). -/
def attrSetContainerFx : LDAttribute :=
  { name := "mboxes", container := some .atSet, propertyUri := "http://xmlns.com/foaf/0.1/mbox"
    jsonldType := some "http://www.w3.org/2001/XMLSchema#string", language := Option.none
    formatOk := fmtAny, xsdify := id }

/-- Fixture: an `@list` attribute (like `children`). -/
def attrListContainerFx : LDAttribute :=
  { name := "children", container := some .atList, propertyUri := "http://e.org/children"
    jsonldType := some "@id", language := Option.none
    formatOk := fmtAny, xsdify := id }

/-- Fixture: a clean per-instance state holding the scalar `"a@x"`. -/
def stScalarFx : AttrState := { current := .scalar "a@x", former := Option.none }

end LdOrm

namespace OldmanProperty

/-- Fixture: the state after `generate_attributes()` on a property with *no*
attribute metadata: `self._om_attributes = set()` — which is falsy. -/
def genEmptyFx : OMPropertyState :=
  { propertyIri := "http://xmlns.com/foaf/0.1/mbox", reversed := false
    propType := Option.none, ranges := [], tmpAttrMds := [], omAttributes := some [] }

/-- Fixture: one attribute-metadata entry. -/
def mdFx : AttrMd :=
  { name := "mboxes", language := Option.none, jsonldType := some "@id"
    container := some "@set", reversed := false }

/-- Fixture: the state after `generate_attributes()` on a property that had
one metadata entry: the generated set is non-empty, hence truthy. -/
def genNonemptyFx : OMPropertyState :=
  { propertyIri := "http://xmlns.com/foaf/0.1/mbox", reversed := false
    propType := some .object, ranges := [], tmpAttrMds := [], omAttributes := some [mdFx] }

end OldmanProperty

namespace Registry

/-- The leaf models as the spec sentence defines them: registered models
whose `class_iri` is in the type set and none of whose *descendant models* —
registered models (other than itself) whose ancestry contains its class IRI —
has its class IRI in the type set. -/
def specLeafModels (st : RegistryState) (typeSet : List (Option String)) : List RegModel :=
  (st.modelClasses.map Prod.snd).filter fun m =>
    typeSet.contains m.classIri &&
    !((st.modelClasses.map Prod.snd).any fun d =>
        d.classIri != m.classIri &&
        (match m.classIri with
         | some c => d.ancestryIris.contains c
         | Option.none => false) &&
        typeSet.contains d.classIri)

/-- The leaf models as the amended claim C3 states them: computed against the
registry's *recorded* descendant map (`_model_descendants`), in canonical
order; a type with no recorded entry is not a registered model class. -/
def specRecordedLeafModels (st : RegistryState) (typeSet : List (Option String)) :
    List RegModel :=
  (canonTypeKey typeSet).filterMap fun t =>
    match List.lookup t st.modelDescendants with
    | some ds =>
      if ds.all (fun d => ¬ typeSet.contains d) then List.lookup t st.modelClasses
      else Option.none
    | Option.none => Option.none

/-- Fixture: the default model (`class_iri = None`). -/
def defaultModelFx : RegModel := { classIri := Option.none, name := "Thing", ancestryIris := [] }

/-- Fixture: a parent class `P` (its ancestry is itself). -/
def pModelFx : RegModel :=
  { classIri := some "http://e.org/P", name := "P", ancestryIris := ["http://e.org/P"] }

/-- Fixture: a child class `C`, subclass of `P`. -/
def cModelFx : RegModel :=
  { classIri := some "http://e.org/C", name := "C"
    ancestryIris := ["http://e.org/C", "http://e.org/P"] }

/-- Fixture: the registry after registering the default model and `P`. -/
def regePFx : RegistryState :=
  { modelClasses := [(Option.none, defaultModelFx), (some "http://e.org/P", pModelFx)]
    modelNames := [("Thing", defaultModelFx), ("P", pModelFx)]
    defaultModelName := "Thing"
    modelDescendants := [(some "http://e.org/P", []), (Option.none, [])]
    typeSetCache := [] }

/-- Fixture: the registry after additionally registering `C` — `P` having
been registered *before* its descendant `C`, the recorded descendant list of
`P` is (wrongly, for the spec's reading) empty. -/
def regePCFx : RegistryState :=
  { modelClasses := [(Option.none, defaultModelFx), (some "http://e.org/P", pModelFx),
                     (some "http://e.org/C", cModelFx)]
    modelNames := [("Thing", defaultModelFx), ("P", pModelFx), ("C", cModelFx)]
    defaultModelName := "Thing"
    modelDescendants := [(some "http://e.org/C", []), (some "http://e.org/P", []),
                         (Option.none, [])]
    typeSetCache := [] }

/-- Fixture: the type set `{P, C}`. -/
def typeSetPCFx : List (Option String) := [some "http://e.org/P", some "http://e.org/C"]

/-- Fixture: the registry `regePCFx` after `find_models_and_types([P])`: the
pair `([P], [P])` is cached under the canonical tuple `[P]` (input key and
returned-types key coincide here). -/
def regeAfterFindPFx : RegistryState :=
  { regePCFx with
    typeSetCache := [([some "http://e.org/P"], ([pModelFx], [some "http://e.org/P"]))] }

/-- Fixture: a root class `A`. -/
def rModelAFx : RegModel :=
  { classIri := some "http://e.org/A", name := "A", ancestryIris := ["http://e.org/A"] }

/-- Fixture: `B`, subclass of `A`. -/
def rModelBFx : RegModel :=
  { classIri := some "http://e.org/B", name := "B"
    ancestryIris := ["http://e.org/B", "http://e.org/A"] }

/-- Fixture: `C`, subclass of `B` (transitive ancestry `C, B, A`). -/
def rModelCFx : RegModel :=
  { classIri := some "http://e.org/C", name := "C"
    ancestryIris := ["http://e.org/C", "http://e.org/B", "http://e.org/A"] }

/-- Fixture: the registry after registering the default model and `A`. -/
def regDeepAFx : RegistryState :=
  { modelClasses := [(Option.none, defaultModelFx), (some "http://e.org/A", rModelAFx)]
    modelNames := [("Thing", defaultModelFx), ("A", rModelAFx)]
    defaultModelName := "Thing"
    modelDescendants := [(some "http://e.org/A", []), (Option.none, [])]
    typeSetCache := [] }

/-- Fixture: additionally registering `B`. -/
def regDeepABFx : RegistryState :=
  { modelClasses := [(Option.none, defaultModelFx), (some "http://e.org/A", rModelAFx),
                     (some "http://e.org/B", rModelBFx)]
    modelNames := [("Thing", defaultModelFx), ("A", rModelAFx), ("B", rModelBFx)]
    defaultModelName := "Thing"
    modelDescendants := [(some "http://e.org/B", []), (some "http://e.org/A", []),
                         (Option.none, [])]
    typeSetCache := [] }

/-- Fixture: the parents-first registry `A`, `B`, `C` — every recorded
descendant list is empty, since each registration only scans the models
registered before it. -/
def regDeepFx : RegistryState :=
  { modelClasses := [(Option.none, defaultModelFx), (some "http://e.org/A", rModelAFx),
                     (some "http://e.org/B", rModelBFx), (some "http://e.org/C", rModelCFx)]
    modelNames := [("Thing", defaultModelFx), ("A", rModelAFx), ("B", rModelBFx),
                   ("C", rModelCFx)]
    defaultModelName := "Thing"
    modelDescendants := [(some "http://e.org/C", []), (some "http://e.org/B", []),
                         (some "http://e.org/A", []), (Option.none, [])]
    typeSetCache := [] }

/-- Fixture: the pair `find_models_and_types({C})` computes on `regDeepFx`:
leaf `C`, returned types `C` plus its ancestry. -/
def deepPairCFx : List RegModel × List (Option String) :=
  ([rModelCFx], [some "http://e.org/C", some "http://e.org/A", some "http://e.org/B"])

/-- Fixture: the pair `find_models_and_types({B, C})` computes on the same
registry: both kept as leaves (recorded descendants are empty), returned
types `B, C` plus ancestry `A`. Note `tuple(set(·))` of its types equals that
of `deepPairCFx`'s types. -/
def deepPairBCFx : List RegModel × List (Option String) :=
  ([rModelBFx, rModelCFx], [some "http://e.org/B", some "http://e.org/C", some "http://e.org/A"])

/-- Fixture: `regDeepFx` after `find_models_and_types({C})`: the pair is
cached under the canonical tuples of `{C}` and of its returned types
`{A, B, C}`. -/
def regDeep1Fx : RegistryState :=
  { regDeepFx with typeSetCache :=
      [([some "http://e.org/A", some "http://e.org/B", some "http://e.org/C"], deepPairCFx),
       ([some "http://e.org/C"], deepPairCFx)] }

/-- Fixture: `regDeep1Fx` after `find_models_and_types({B, C})`: its store
under the canonical tuple of its returned types *overwrites* the `{A, B, C}`
entry of the first query, while the `{C}` entry keeps the first pair. -/
def regDeep2Fx : RegistryState :=
  { regDeepFx with typeSetCache :=
      [([some "http://e.org/A", some "http://e.org/B", some "http://e.org/C"], deepPairBCFx),
       ([some "http://e.org/B", some "http://e.org/C"], deepPairBCFx),
       ([some "http://e.org/C"], deepPairCFx)] }

end Registry

namespace OldmanResource

/-- "Implied by the ancestry of the resource's current types", as claim C6
reads: the IRI occurs in the ancestry of one of the resource's models. -/
def specImpliedByAncestry (models : List Registry.RegModel) (t : String) : Bool :=
  models.any fun m => m.ancestryIris.contains t

/-- Fixture: a model `A` whose ancestry is itself. -/
def modelAFx : Registry.RegModel :=
  { classIri := some "http://e.org/A", name := "A", ancestryIris := ["http://e.org/A"] }

/-- Fixture: current types `{A, B}` (`B` has no registered model). -/
def curTypesFx : Finset String := {"http://e.org/A", "http://e.org/B"}

/-- Fixture: updated types `{A, C}` — adds `C`, removes `B`. -/
def newTypesFx : Finset String := {"http://e.org/A", "http://e.org/C"}

/-- Fixture: a blank-node IRI (locally skolemised). -/
def blankIriFx : String := "http://localhost/.well-known/genid/b1"

/-- Fixture: a resource holding the blank node and an external IRI in an
object attribute. -/
def delRootFx : DResource :=
  { id := "http://example.org/doc/r", objAttrs := [[blankIriFx, "http://example.org/other"]] }

/-- Fixture: a second resource also referencing the same blank node. -/
def delOtherRefFx : DResource :=
  { id := "http://example.org/doc/r2", objAttrs := [[blankIriFx]] }

/-- Fixture: the blank-node resource itself. -/
def delBlankFx : DResource := { id := blankIriFx, objAttrs := [] }

/-- Fixture: the non-blank target. -/
def delExtFx : DResource := { id := "http://example.org/other", objAttrs := [] }

/-- Fixture: the heap for the cascade-deletion scenario. -/
def delHeapFx : List DResource := [delRootFx, delOtherRefFx, delBlankFx, delExtFx]

end OldmanResource

namespace OldmanSer

/-- The ids present in a heap. -/
def heapIds (heap : List SResource) : Finset String :=
  (heap.map fun r => r.id).toFinset

/-- A fuel sufficient for any serialisation over the heap. -/
def heapBound (heap : List SResource) : Nat :=
  (heapIds heap).card

/-- Fixture: blank node `x1`, referencing `x2`. -/
def cyc1Fx : SResource :=
  { id := "http://localhost/.well-known/genid/x1", context := "http://e.org/ctx"
    types := ["http://e.org/T"]
    attrs := [{ name := "friend", isWriteOnly := false
                value := .res "http://localhost/.well-known/genid/x2" }] }

/-- Fixture: blank node `x2`, referencing `x1` back — a cyclic object
graph. -/
def cyc2Fx : SResource :=
  { id := "http://localhost/.well-known/genid/x2", context := "http://e.org/ctx"
    types := []
    attrs := [{ name := "friend", isWriteOnly := false
                value := .res "http://localhost/.well-known/genid/x1" }] }

/-- Fixture: the cyclic heap. -/
def cycHeapFx : List SResource := [cyc1Fx, cyc2Fx]

end OldmanSer

namespace OldmanSession

/-- Fixture: a resource instance. -/
def resAFx : CResource := { id := "http://e.org/a", instanceTag := 7 }

/-- Fixture: a *different instance* carrying the same IRI (a fresh store
copy). -/
def resAcopyFx : CResource := { id := "http://e.org/a", instanceTag := 8 }

/-- Fixture: another resource. -/
def resBFx : CResource := { id := "http://e.org/b", instanceTag := 9 }

/-- Fixture: a session tracking `resAFx`, whose broker would deliver a fresh
copy of the same IRI. -/
def sessionFx : SessionState :=
  { tracker := [("http://e.org/a", resAFx)]
    brokerGet := fun iri => if iri = "http://e.org/a" then some resAcopyFx else
      if iri = "http://e.org/b" then some resBFx else Option.none }

end OldmanSession

namespace Registry

theorem lookup_filterOutKey {α β : Type} [BEq α] [LawfulBEq α] [DecidableEq α]
    (c : List (α × β)) (k k' : α) (h : k' ≠ k) :
    List.lookup k' (c.filter fun e => e.1 ≠ k) = List.lookup k' c := by
  induction c with
  | nil => rfl
  | cons a t ih =>
    obtain ⟨a1, a2⟩ := a
    by_cases ha : a1 = k
    · subst ha
      have h1 : (k' == a1) = false := by simp [h]
      have h2 : (decide (a1 ≠ a1)) = false := by simp
      simp only [List.filter_cons, h2, if_false, Bool.false_eq_true, List.lookup_cons, h1, ih]
    · have h2 : (decide (a1 ≠ k)) = true := by simp [ha]
      simp only [List.filter_cons, h2, if_true, List.lookup_cons, ih]

theorem lookup_insertCache_self {α β : Type} [BEq α] [LawfulBEq α] [DecidableEq α]
    (c : List (α × β)) (k : α) (v : β) :
    List.lookup k (insertCache c k v) = some v := by
  simp [insertCache, List.lookup_cons]

theorem lookup_insertCache_ne {α β : Type} [BEq α] [LawfulBEq α] [DecidableEq α]
    (c : List (α × β)) (k k' : α) (v : β) (h : k' ≠ k) :
    List.lookup k' (insertCache c k v) = List.lookup k' c := by
  rw [insertCache, List.lookup_cons]
  have : (k' == k) = false := by simp [h]
  simp only [this, Bool.false_eq_true, if_false]
  exact lookup_filterOutKey c k k' h

end Registry

namespace OldmanResource

/-- Claim C2 (code bug): `Resource.delete` on `delRootFx` cascade-deletes the
blank node `blankIriFx` although `delOtherRefFx` still references it — the
source's `should_delete_resource` checks only blank-nodeness (its TODO admits
the missing referenced-elsewhere check). Non-blank targets are left alone. -/
theorem delete_cascade_ignores_external_references :
    collectDeleted delHeapFx 2 delRootFx = [blankIriFx, "http://example.org/doc/r"]
    ∧ blankIriFx ∈ delOtherRefFx.objAttrs.flatMap (fun l => l)
    ∧ delOtherRefFx.id ∉ collectDeleted delHeapFx 2 delRootFx
    ∧ "http://example.org/other" ∉ collectDeleted delHeapFx 2 delRootFx
    ∧ isBlankNode blankIriFx = true
    ∧ isBlankNode "http://example.org/other" = false := by
  decide

end OldmanResource

namespace OldmanProperty

/-- Claim C9 (code bug): after `generate_attributes()` on a property with no
attribute metadata, the generated set is the *empty* set, which is falsy, so
a second `generate_attributes()` silently regenerates and
`add_attribute_metadata` still succeeds — contradicting the docstring "When
called a second time, raises an OMAlreadyGeneratedAttributeError". With at
least one metadata entry both calls raise as documented. -/
theorem generate_attributes_empty_not_frozen :
    generateAttributes (freshProperty "http://xmlns.com/foaf/0.1/mbox") = .ok genEmptyFx
    ∧ generateAttributes genEmptyFx = .ok genEmptyFx
    ∧ addAttributeMetadata genEmptyFx "mboxes" (some "@id") Option.none (some "@set") false
        = .ok { genEmptyFx with propType := some .object, tmpAttrMds := [mdFx] }
    ∧ generateAttributes genNonemptyFx = .error .alreadyGeneratedAttribute
    ∧ addAttributeMetadata genNonemptyFx "mbox2" (some "@id") Option.none Option.none false
        = .error .alreadyGeneratedAttribute := by
  decide

end OldmanProperty

namespace LdOrm

/-- Claim C8, counterexample: assigning the *empty list* to an `@set`
attribute does not store `None` — `check_value` rejects the shape (the
container check precedes the empty-container collapse), so the assignment
raises `AttributeTypeError` instead. -/
theorem empty_container_claim_counterexample :
    setAttr attrSetContainerFx { current := .none, former := Option.none } (.list [])
      = .error .containerMismatch := by
  decide

/-- Claim C8, amended: an empty container that passes the container-shape
check (empty set on `@set`, empty list on `@list`, empty set or dict with no
declared container) is stored as `None`. -/
theorem empty_container_stores_none (a : LDAttribute) (st st' : AttrState) (v : PyVal)
    (hv : v = .set [] ∨ v = .list [] ∨ v = .dict [])
    (hok : setAttr a st v = .ok st') :
    st'.current = .none := by
  rcases hv with rfl | rfl | rfl <;>
  · rw [setAttr] at hok
    cases hcv : checkValue a _ with
    | error e => rw [hcv] at hok; exact absurd hok (by simp)
    | ok u =>
      cases u
      rw [hcv] at hok
      simp only [Except.ok.injEq] at hok
      subst hok
      rfl

/-- Witness for `empty_container_stores_none`: the empty set assigned to the
`@set` attribute `mboxes` is stored as `None`. -/
theorem empty_container_stores_none_witness :
    ((PyVal.set [] : PyVal) = .set [] ∨ (PyVal.set [] : PyVal) = .list []
        ∨ (PyVal.set [] : PyVal) = .dict [])
    ∧ AttrState.current { current := .none, former := Option.none } = .none := by
  refine ⟨Or.inl rfl, ?_⟩
  exact empty_container_stores_none attrSetContainerFx
    { current := .none, former := Option.none }
    { current := .none, former := Option.none } (.set []) (Or.inl rfl) (by decide)

/-- Claim C7, counterexample: an attribute with *no declared container*
accepts a `set` (Python's `CONTAINER_REQUIREMENTS[None] = object` admits
every value and `_check_container` only warns for non-list containers), where
the claim required a scalar and an `AttributeTypeError`. -/
theorem check_value_scalar_claim_counterexample :
    checkValue attrNoContainerFx (.set ["b@x"]) = .ok () := by
  decide

/-- Claim C7, amended: for values whose scalars pass the value format,
`check_value` accepts exactly the shapes of `specShapeAccepted`: a `set` for
`@set`, a `list` for `@list`, and — with no declared container — anything
except a `list`; every rejection is an `AttributeTypeError`. -/
theorem check_value_shape_characterisation (a : LDAttribute) (v : PyVal)
    (h : formatsOk a v = true) :
    checkValue a v = .ok () ↔ specShapeAccepted a.container v = true := by
  rcases hc : a.container with _ | c
  · cases v <;>
      (simp_all [checkValue, requiredContainerOk, checkContainer, isContainerVal, isSetVal,
          isListVal, specShapeAccepted, formatsOk, containedScalars, hc]
       try exact h)
  · cases c <;> cases v <;>
      (simp_all [checkValue, requiredContainerOk, checkContainer, isContainerVal, isSetVal,
          isListVal, specShapeAccepted, formatsOk, containedScalars, hc]
       try exact h)

/-- Witness for `check_value_shape_characterisation`: the scalar `"b@x"` on
the `@set` attribute `mboxes` is rejected (the spec scenario `p.mboxes =
"b@x"`), shown through the characterisation. -/
theorem check_value_shape_characterisation_witness :
    formatsOk attrSetContainerFx (.scalar "b@x") = true
    ∧ ¬ checkValue attrSetContainerFx (.scalar "b@x") = .ok () := by
  refine ⟨by decide, ?_⟩
  intro hok
  have h := (check_value_shape_characterisation attrSetContainerFx (.scalar "b@x")
    (by decide)).mp hok
  exact absurd h (by decide)

/-- Claim C10: assigning a value equal (after empty-container collapse) to
the current one, with no pending former value, leaves the former-value slot
empty, so `has_new_value` stays `False` and `Model._save` emits no DELETE or
INSERT line for the attribute. -/
theorem equal_assignment_no_new_value (a : LDAttribute) (st st' : AttrState) (v : PyVal)
    (hclean : hasNewValue st = false)
    (heq : pyEq st.current (collapseEmpty v) = true)
    (hok : setAttr a st v = .ok st') :
    hasNewValue st' = false
    ∧ saveCollectLines [(a, st')] = .ok ("", "", [(a, st')]) := by
  have hnone : st.former = Option.none := by
    cases hst : st.former
    · rfl
    · rw [hasNewValue, hst] at hclean; simp at hclean
  rw [setAttr] at hok
  cases hcv : checkValue a v with
  | error e => rw [hcv] at hok; exact absurd hok (by simp)
  | ok u =>
    cases u
    rw [hcv] at hok
    simp [hnone, heq] at hok
    subst hok
    exact ⟨rfl, by simp [saveCollectLines, hasNewValue]⟩

/-- Witness for `equal_assignment_no_new_value`: re-assigning the current
scalar `"a@x"` leaves no former value and `_save` emits nothing for it. -/
theorem equal_assignment_no_new_value_witness :
    hasNewValue stScalarFx = false
    ∧ pyEq stScalarFx.current (collapseEmpty (.scalar "a@x")) = true
    ∧ hasNewValue stScalarFx = false
    ∧ saveCollectLines [(attrNoContainerFx, stScalarFx)]
        = .ok ("", "", [(attrNoContainerFx, stScalarFx)]) := by
  refine ⟨by decide, by decide, ?_⟩
  exact equal_assignment_no_new_value attrNoContainerFx stScalarFx stScalarFx (.scalar "a@x")
    (by decide) (by decide) (by decide)

end LdOrm

namespace OldmanResource

/-- Claim C6, counterexample: with `allow_new_type = True` (so the claimed
"raises iff `allow_new_type` is false and the type is not implied" predicts
no raise) an update whose `types` contain the genuinely new `C` *and* drop
the non-implicit `B` still raises `OMUnauthorizedTypeChangeError`, from the
removal branch of `_check_and_update_types` with `allow_type_removal =
False`. -/
theorem type_change_gate_counterexample :
    checkAndUpdateTypes [modelAFx] curTypesFx newTypesFx true false
      = .error .unauthorizedTypeChange
    ∧ "http://e.org/C" ∈ newTypesFx
    ∧ "http://e.org/C" ∉ curTypesFx
    ∧ specImpliedByAncestry [modelAFx] "http://e.org/C" = false := by
  decide

/-- Claim C6, amended: when the update's types contain a type the resource
does not hold, `_check_and_update_types` raises
`OMUnauthorizedTypeChangeError` iff `allow_new_type` is false — additions are
judged against the current types alone, ancestry granting no exemption — or
the update also removes a type not implicit in the models' ancestry while
`allow_type_removal` is false. -/
theorem type_change_gate_characterisation (models : List Registry.RegModel)
    (cur new : Finset String) (allowNew allowRem : Bool)
    (h : ¬ new ⊆ cur) :
    checkAndUpdateTypes models cur new allowNew allowRem
        = .error .unauthorizedTypeChange
      ↔ (allowNew = false
         ∨ (allowRem = false ∧ (cur \ new) \ implicitTypes models ≠ ∅)) := by
  have hne : new ≠ cur := fun hh => h (by rw [hh])
  have hadd : new \ cur ≠ ∅ := by
    rw [Ne, Finset.sdiff_eq_empty_iff_subset]
    exact h
  rw [checkAndUpdateTypes]
  rw [if_neg hne]
  simp only [hadd, if_true, ne_eq, not_false_eq_true]
  cases allowNew with
  | false => simp
  | true =>
    simp only [Bool.not_true, if_false, Bool.false_eq_true, ite_false, ite_true]
    by_cases hmiss : cur \ new = ∅
    · have hrem : (cur \ new) \ implicitTypes models = ∅ := by
        rw [hmiss]; exact Finset.empty_sdiff _
      simp [hmiss, hrem]
    · by_cases hrem : (cur \ new) \ implicitTypes models = ∅
      · simp [hmiss, hrem]
      · cases allowRem with
        | false => simp [hmiss, hrem]
        | true => simp [hmiss, hrem]

/-- Witness for `type_change_gate_characterisation`: adding `C` to `{A, B}`
with `allow_new_type = False` raises. -/
theorem type_change_gate_characterisation_witness :
    ¬ ({"http://e.org/A", "http://e.org/B", "http://e.org/C"} : Finset String) ⊆ curTypesFx
    ∧ checkAndUpdateTypes [modelAFx] curTypesFx
        {"http://e.org/A", "http://e.org/B", "http://e.org/C"} false true
        = .error .unauthorizedTypeChange := by
  refine ⟨by decide, ?_⟩
  exact (type_change_gate_characterisation [modelAFx] curTypesFx
    {"http://e.org/A", "http://e.org/B", "http://e.org/C"} false true (by decide)).mpr
    (Or.inl rfl)

end OldmanResource

namespace OldmanSession

theorem trackerFind_trackerAdd_self (t : Tracker) (r : CResource) :
    trackerFind (trackerAdd t r) r.id = some r :=
  Registry.lookup_insertCache_self t r.id r

theorem trackerFind_trackerAdd_ne (t : Tracker) (r : CResource) (k : String) (h : k ≠ r.id) :
    trackerFind (trackerAdd t r) k = trackerFind t k :=
  Registry.lookup_insertCache_ne t r.id k r h

theorem trackerFind_addAll_not_mem (rs : List CResource) (t : Tracker) (k : String)
    (h : k ∉ rs.map fun x => x.id) :
    trackerFind (trackerAddAll t rs) k = trackerFind t k := by
  induction rs generalizing t with
  | nil => rfl
  | cons a rest ih =>
    simp only [List.map_cons, List.mem_cons, not_or] at h
    rw [trackerAddAll, List.foldl_cons]
    rw [show List.foldl trackerAdd (trackerAdd t a) rest = trackerAddAll (trackerAdd t a) rest
      from rfl]
    rw [ih (trackerAdd t a) h.2, trackerFind_trackerAdd_ne t a k h.1]

theorem trackerFind_addAll_mem (rs : List CResource) (t : Tracker) (r : CResource)
    (hnd : (rs.map fun x => x.id).Nodup) (hr : r ∈ rs) :
    trackerFind (trackerAddAll t rs) r.id = some r := by
  induction rs generalizing t with
  | nil => cases hr
  | cons a rest ih =>
    rw [trackerAddAll, List.foldl_cons]
    rw [show List.foldl trackerAdd (trackerAdd t a) rest = trackerAddAll (trackerAdd t a) rest
      from rfl]
    simp only [List.map_cons, List.nodup_cons] at hnd
    rcases List.mem_cons.mp hr with rfl | hmem
    · rw [trackerFind_addAll_not_mem rest (trackerAdd t r) r.id hnd.1]
      exact trackerFind_trackerAdd_self t r
    · exact ih (trackerAdd t a) hnd.2 hmem

/-- Claim C1: within a session, resources are identity-stable. (1) `get` on a
tracked IRI returns the tracked instance, without touching the store or the
session state; and each way a resource becomes tracked — (2) `new`, (3) `get`
fetching from the broker, (4) `first`, (5) `filter` (when the broker returns
distinct IRIs) — returns exactly the instance it records under its IRI, so
later `get`s of that IRI return it. The tracker itself is modelled from the
spec (see `Tracker`). -/
theorem session_identity_stable :
    (∀ (s : SessionState) (iri : String) (r : CResource),
        trackerFind s.tracker iri = some r → sessionGet s iri = (some r, s))
    ∧ (∀ (s : SessionState) (r : CResource),
        (sessionNew s r).1 = r
        ∧ trackerFind (sessionNew s r).2.tracker r.id = some r)
    ∧ (∀ (s : SessionState) (iri : String) (r : CResource),
        trackerFind s.tracker iri = Option.none → s.brokerGet iri = some r →
          (sessionGet s iri).1 = some r
          ∧ trackerFind (sessionGet s iri).2.tracker r.id = some r)
    ∧ (∀ (s : SessionState) (r : CResource),
        (sessionFirst s (some r)).1 = some r
        ∧ trackerFind (sessionFirst s (some r)).2.tracker r.id = some r)
    ∧ (∀ (s : SessionState) (rs : List CResource) (r : CResource),
        ((rs.map fun x => x.id).Nodup) → r ∈ rs →
          (sessionFilter s rs).1 = rs
          ∧ trackerFind (sessionFilter s rs).2.tracker r.id = some r) := by
  refine ⟨?_, ?_, ?_, ?_, ?_⟩
  · intro s iri r h
    rw [sessionGet, h]
  · intro s r
    exact ⟨rfl, trackerFind_trackerAdd_self s.tracker r⟩
  · intro s iri r hmiss hbroker
    rw [sessionGet, hmiss, hbroker]
    exact ⟨rfl, trackerFind_trackerAdd_self s.tracker r⟩
  · intro s r
    exact ⟨rfl, trackerFind_trackerAdd_self s.tracker r⟩
  · intro s rs r hnd hr
    exact ⟨rfl, trackerFind_addAll_mem rs s.tracker r hnd hr⟩

/-- Witness for `session_identity_stable`: in `sessionFx`, which tracks
`resAFx` while the broker would deliver the distinct copy `resAcopyFx`,
`get("http://e.org/a")` returns the tracked `resAFx` unchanged; and on a
fresh IRI the broker's `resBFx` is returned and tracked. -/
theorem session_identity_stable_witness :
    trackerFind sessionFx.tracker "http://e.org/a" = some resAFx
    ∧ sessionGet sessionFx "http://e.org/a" = (some resAFx, sessionFx)
    ∧ trackerFind sessionFx.tracker "http://e.org/b" = Option.none
    ∧ sessionFx.brokerGet "http://e.org/b" = some resBFx
    ∧ (sessionGet sessionFx "http://e.org/b").1 = some resBFx
    ∧ trackerFind (sessionGet sessionFx "http://e.org/b").2.tracker resBFx.id = some resBFx := by
  refine ⟨by decide, session_identity_stable.1 sessionFx "http://e.org/a" resAFx (by decide),
    by decide, by decide, ?_⟩
  exact session_identity_stable.2.2.1 sessionFx "http://e.org/b" resBFx (by decide) (by decide)

end OldmanSession

namespace Registry

theorem mem_canonTypeKey (x : Option String) (l : List (Option String)) :
    x ∈ canonTypeKey l ↔ x ∈ l := by
  rw [canonTypeKey, List.mem_insertionSort, List.mem_dedup]

theorem canonTypeKey_nil : canonTypeKey [] = [] := rfl

theorem canonTypeKey_ne_nil (l : List (Option String)) (h : l ≠ []) :
    canonTypeKey l ≠ [] := by
  cases l with
  | nil => cases h rfl
  | cons a t =>
    exact List.ne_nil_of_mem ((mem_canonTypeKey a (a :: t)).mpr (List.mem_cons_self a t))

theorem contains_iff_mem (T : List (Option String)) (d : Option String) :
    T.contains d = true ↔ d ∈ T :=
  List.elem_iff

theorem inter_canon_isEmpty (ds T : List (Option String)) :
    ((ds.inter (canonTypeKey T)).isEmpty) = (ds.all fun d => ¬ T.contains d) := by
  rw [Bool.eq_iff_iff, List.isEmpty_iff, List.all_eq_true, List.eq_nil_iff_forall_not_mem]
  constructor
  · intro hn d hd
    have h2 : d ∉ canonTypeKey T := fun hk => hn d (List.mem_inter_iff.mpr ⟨hd, hk⟩)
    rw [mem_canonTypeKey] at h2
    simp only [decide_eq_true_eq]
    exact fun hc => h2 ((contains_iff_mem T d).mp hc)
  · intro hall x hx
    rcases List.mem_inter_iff.mp hx with ⟨h1, h2⟩
    have h3 := hall x h1
    rw [mem_canonTypeKey] at h2
    simp only [decide_eq_true_eq] at h3
    exact h3 ((contains_iff_mem T x).mpr h2)

theorem findLeafModels_eq_specRecorded (st : RegistryState) (T : List (Option String)) :
    findLeafModels st (canonTypeKey T) =
      if specRecordedLeafModels st T = [] then defaultModels st
      else specRecordedLeafModels st T := by
  rw [findLeafModels, specRecordedLeafModels]
  have hfm : ((canonTypeKey T).filterMap fun t =>
      match st.modelDescendants.lookup t with
      | some descendants =>
          if (descendants.inter (canonTypeKey T)).isEmpty then st.modelClasses.lookup t
          else Option.none
      | Option.none => Option.none) =
      ((canonTypeKey T).filterMap fun t =>
      match List.lookup t st.modelDescendants with
      | some ds =>
        if ds.all (fun d => ¬ T.contains d) then List.lookup t st.modelClasses
        else Option.none
      | Option.none => Option.none) := by
    refine List.filterMap_congr fun t _ => ?_
    cases List.lookup t st.modelDescendants with
    | none => rfl
    | some ds =>
      dsimp only
      rw [inter_canon_isEmpty ds T]
  rw [hfm]
  rcases hsp : ((canonTypeKey T).filterMap fun t =>
      match List.lookup t st.modelDescendants with
      | some ds =>
        if ds.all (fun d => ¬ T.contains d) then List.lookup t st.modelClasses
        else Option.none
      | Option.none => Option.none) with _ | ⟨a, t⟩
  · simp
  · simp

theorem findModelsAndTypes_empty (st : RegistryState) (T : List (Option String))
    (hT : T.length = 0) :
    findModelsAndTypes st T = ((defaultModels st, []), st) := by
  rw [findModelsAndTypes, if_pos hT]

theorem findModelsAndTypes_hit (st : RegistryState) (T : List (Option String))
    (pair : List RegModel × List (Option String)) (hT : ¬ T.length = 0)
    (h : List.lookup (canonTypeKey T) st.typeSetCache = some pair) :
    findModelsAndTypes st T = (pair, st) := by
  rw [findModelsAndTypes, if_neg hT]
  simp only [h]

theorem findModelsAndTypes_missing (st : RegistryState) (T : List (Option String))
    (hT : ¬ T.length = 0)
    (h : List.lookup (canonTypeKey T) st.typeSetCache = Option.none) :
    findModelsAndTypes st T = (computedPair st T, stateAfterMiss st T) := by
  rw [findModelsAndTypes, if_neg hT]
  simp only [h]
  rfl

theorem computedTypes_ne_nil (st : RegistryState) (T : List (Option String)) (hT : T ≠ []) :
    (computedPair st T).2 ≠ [] := by
  simp only [computedPair]
  rcases hlm : findLeafModels st (canonTypeKey T) with _ | ⟨a, t⟩
  · simp only [hlm, List.map_nil, List.nil_append]
    intro happ
    rcases List.append_eq_nil.mp happ with ⟨hind, _⟩
    have hall := List.filter_eq_nil_iff.mp hind
    have hkeyne : canonTypeKey T ≠ [] := canonTypeKey_ne_nil T hT
    rcases hk : canonTypeKey T with _ | ⟨k, ks⟩
    · exact hkeyne hk
    · refine hall k (by rw [hk]; exact List.mem_cons_self k ks) ?_
      rfl
  · simp [hlm]

end Registry

namespace Registry

/-- Claim C3, counterexample: with `P` registered *before* its subclass `C`,
the recorded descendant list of `P` is empty (`register` only scans models
registered earlier), so for the type set `{P, C}` `find_models_and_types`
returns *both* models, although by the spec's reading of leaf models — no
descendant model's class in the type set — only `C` is a leaf. -/
theorem find_models_registration_order_counterexample :
    register (initialRegistry defaultModelFx) pModelFx = .ok regePFx
    ∧ register regePFx cModelFx = .ok regePCFx
    ∧ (findModelsAndTypes regePCFx typeSetPCFx).1.1 = [cModelFx, pModelFx]
    ∧ specLeafModels regePCFx typeSetPCFx = [cModelFx]
    ∧ pModelFx ∈ (findModelsAndTypes regePCFx typeSetPCFx).1.1
    ∧ pModelFx ∉ specLeafModels regePCFx typeSetPCFx := by
  decide

/-- Claim C3, amended: on a cache miss, `find_models_and_types` returns the
registered models whose class IRI is in the type set and none of whose
*recorded* descendants' class IRIs are in the type set, falling back to
exactly the default model when there is none (in particular for an empty type
set or a type set without registered classes); `register` records as
descendants of a class exactly the previously registered models whose
ancestry contains it, and never extends the descendant lists of
already-registered (e.g. ancestor) classes. -/
theorem find_models_and_types_recorded_leaves :
    (∀ (st : RegistryState) (T : List (Option String)),
        List.lookup (canonTypeKey T) st.typeSetCache = Option.none →
          (findModelsAndTypes st T).1.1 =
            if T.length = 0 then defaultModels st
            else if specRecordedLeafModels st T = [] then defaultModels st
            else specRecordedLeafModels st T)
    ∧ (∀ (st : RegistryState) (m : RegModel) (st' : RegistryState),
        register st m = .ok st' →
          (List.lookup m.classIri st'.modelDescendants =
            some ((st.modelClasses.map Prod.snd).filterMap fun d =>
              match m.classIri with
              | some c => if c ∈ d.ancestryIris then some d.classIri else Option.none
              | Option.none => Option.none))
          ∧ ∀ k, k ≠ m.classIri →
              List.lookup k st'.modelDescendants = List.lookup k st.modelDescendants) := by
  constructor
  · intro st T hmiss
    by_cases hT : T.length = 0
    · rw [findModelsAndTypes_empty st T hT, if_pos hT]
    · rw [findModelsAndTypes_missing st T hT hmiss, if_neg hT]
      show (computedPair st T).1 = _
      rw [show (computedPair st T).1 = findLeafModels st (canonTypeKey T) from rfl]
      exact findLeafModels_eq_specRecorded st T
  · intro st m st' hreg
    rw [register] at hreg
    by_cases h1 : (List.lookup m.classIri st.modelClasses).isSome
    · rw [if_pos h1] at hreg; cases hreg
    · rw [if_neg h1] at hreg
      by_cases h2 : (List.lookup m.name st.modelNames).isSome
      · rw [if_pos h2] at hreg; cases hreg
      · rw [if_neg h2] at hreg
        have hst' := (Except.ok.injEq _ _).mp hreg.symm
        rw [hst']
        constructor
        · exact lookup_insertCache_self st.modelDescendants m.classIri _
        · intro k hk
          exact lookup_insertCache_ne st.modelDescendants m.classIri k _ hk

/-- Witness for `find_models_and_types_recorded_leaves`: on the registry with
`P` and `C` and an empty cache, the type set `{P, C}` goes through the
recorded-leaf characterisation, and registering `C` recorded no
descendant. -/
theorem find_models_and_types_recorded_leaves_witness :
    List.lookup (canonTypeKey typeSetPCFx) regePCFx.typeSetCache = Option.none
    ∧ (findModelsAndTypes regePCFx typeSetPCFx).1.1 =
        (if typeSetPCFx.length = 0 then defaultModels regePCFx
         else if specRecordedLeafModels regePCFx typeSetPCFx = [] then defaultModels regePCFx
         else specRecordedLeafModels regePCFx typeSetPCFx)
    ∧ register regePFx cModelFx = .ok regePCFx
    ∧ List.lookup cModelFx.classIri regePCFx.modelDescendants =
        some ((regePFx.modelClasses.map Prod.snd).filterMap fun d =>
          match cModelFx.classIri with
          | some c => if c ∈ d.ancestryIris then some d.classIri else Option.none
          | Option.none => Option.none) := by
  refine ⟨by decide, find_models_and_types_recorded_leaves.1 regePCFx typeSetPCFx (by decide),
    by decide, ?_⟩
  exact (find_models_and_types_recorded_leaves.2 regePFx cModelFx regePCFx (by decide)).1

/-- Claim C4, counterexample: on the parents-first registry `A ⊃ B ⊃ C`
(reachable by three `register` calls; every recorded descendant list is
empty, the bug of claim C3), querying `{C}` and then `{B, C}` overwrites the
cache entry under the canonical tuple `{A, B, C}` — shared by the returned
types of both queries — with the second pair. On the resulting live state,
`find_models_and_types({C})` still returns `([C], [C, A, B])` from its own
entry, but re-querying the set of those returned types yields
`([B, C], [B, C, A])`: not the same models, not the same types. -/
theorem find_models_and_types_requery_counterexample :
    register (initialRegistry defaultModelFx) rModelAFx = .ok regDeepAFx
    ∧ register regDeepAFx rModelBFx = .ok regDeepABFx
    ∧ register regDeepABFx rModelCFx = .ok regDeepFx
    ∧ findModelsAndTypes regDeepFx [some "http://e.org/C"] = (deepPairCFx, regDeep1Fx)
    ∧ findModelsAndTypes regDeep1Fx [some "http://e.org/B", some "http://e.org/C"]
        = (deepPairBCFx, regDeep2Fx)
    ∧ findModelsAndTypes regDeep2Fx [some "http://e.org/C"] = (deepPairCFx, regDeep2Fx)
    ∧ findModelsAndTypes regDeep2Fx deepPairCFx.2 = (deepPairBCFx, regDeep2Fx)
    ∧ deepPairBCFx ≠ deepPairCFx := by
  decide

/-- Claim C4, amended: idempotence under re-query holds for the call that
*computes* its result — the type set is empty, or its canonical tuple is not
yet cached. Then the pair is stored under the canonical tuple of the input
set and of the returned types, the immediate re-query on the set of the
returned types hits the latter entry and returns the same models, the same
types and the unchanged registry. It does not survive later queries: a
subsequent query whose returned types share the same canonical tuple
overwrites the entry (see the counterexample), and the re-query then returns
the other pair. -/
theorem find_models_and_types_miss_requery_idempotent
    (st : RegistryState) (T : List (Option String)) (ms : List RegModel)
    (ts : List (Option String)) (st' : RegistryState)
    (hmiss : T.length = 0 ∨ List.lookup (canonTypeKey T) st.typeSetCache = Option.none)
    (hfind : findModelsAndTypes st T = ((ms, ts), st')) :
    findModelsAndTypes st' ts = ((ms, ts), st')
    ∧ (T.length ≠ 0 →
        List.lookup (canonTypeKey ts) st'.typeSetCache = some (ms, ts)) := by
  by_cases hT : T.length = 0
  · rw [findModelsAndTypes_empty st T hT, Prod.mk.injEq, Prod.mk.injEq] at hfind
    obtain ⟨⟨hms, hts⟩, hst⟩ := hfind
    subst hms; subst hts; subst hst
    exact ⟨findModelsAndTypes_empty st [] rfl, fun hh => absurd hT hh⟩
  · have hcache : List.lookup (canonTypeKey T) st.typeSetCache = Option.none :=
      hmiss.resolve_left hT
    rw [findModelsAndTypes_missing st T hT hcache, Prod.mk.injEq] at hfind
    obtain ⟨hpair, hst⟩ := hfind
    have hTne : T ≠ [] := by
      intro hnil; rw [hnil] at hT; exact hT rfl
    have htsne : ts ≠ [] := by
      rw [show ts = (computedPair st T).2 from by rw [hpair]]
      exact computedTypes_ne_nil st T hTne
    have htsL : ¬ ts.length = 0 := by
      cases ts with
      | nil => cases htsne rfl
      | cons a t => simp
    have hlook : List.lookup (canonTypeKey ts) st'.typeSetCache = some (ms, ts) := by
      have hts2 : ts = (computedPair st T).2 := by rw [hpair]
      have hms2 : ms = (computedPair st T).1 := by rw [hpair]
      rw [← hst, hts2, hms2, Prod.mk.eta]
      simp only [stateAfterMiss]
      exact lookup_insertCache_self _ _ _
    exact ⟨findModelsAndTypes_hit st' ts (ms, ts) htsL hlook, fun _ => hlook⟩

/-- Witness for `find_models_and_types_miss_requery_idempotent`: querying
`{P}` on the `P`/`C` registry with an empty cache (a miss) then re-querying
the returned types hits the cache and returns the same pair and state. -/
theorem find_models_and_types_miss_requery_idempotent_witness :
    findModelsAndTypes regePCFx [some "http://e.org/P"]
        = (([pModelFx], [some "http://e.org/P"]), regeAfterFindPFx)
    ∧ findModelsAndTypes regeAfterFindPFx [some "http://e.org/P"]
        = (([pModelFx], [some "http://e.org/P"]), regeAfterFindPFx)
    ∧ List.lookup (canonTypeKey [some "http://e.org/P"]) regeAfterFindPFx.typeSetCache
        = some ([pModelFx], [some "http://e.org/P"]) := by
  have h := find_models_and_types_miss_requery_idempotent regePCFx [some "http://e.org/P"]
    [pModelFx] [some "http://e.org/P"] regeAfterFindPFx (Or.inr (by decide)) (by decide)
  exact ⟨by decide, h.1, h.2 (by decide)⟩

end Registry

namespace OldmanSer

theorem objIdsEntries_append (l1 l2 : List (String × Json)) :
    objIdsEntries (l1 ++ l2) = objIdsEntries l1 ++ objIdsEntries l2 := by
  induction l1 with
  | nil => simp [objIdsEntries]
  | cons e es ih => simp [objIdsEntries, ih]

theorem objIdsList_map_str (ts : List String) :
    objIdsList (ts.map Json.str) = [] := by
  induction ts with
  | nil => rfl
  | cons t ts ih => simp [objIdsList, objIds, ih]

theorem objIdsEntries_filter_sublist (p : String × Json → Bool) (l : List (String × Json)) :
    List.Sublist (objIdsEntries (l.filter p)) (objIdsEntries l) := by
  induction l with
  | nil => simp
  | cons e es ih =>
    rw [List.filter_cons]
    by_cases hp : p e
    · simp only [hp, if_true, objIdsEntries]
      exact ih.append_left (objIds e.2)
    · simp only [hp, Bool.false_eq_true, if_false, objIdsEntries]
      exact ih.trans (List.sublist_append_right (objIds e.2) (objIdsEntries es))

theorem objIds_addContext (j : Json) (c : String) :
    objIds (addContext j c) = objIds j := by
  cases j with
  | obj i es => simp [addContext, objIds, objIdsEntries_append, objIdsEntries]
  | null => rfl
  | str s => rfl
  | arr js => rfl

theorem serGrow (heap : List SResource) (rn ic : Bool) :
    (∀ (fuel : Nat) (r : SResource) (ig : Finset String),
        ig ⊆ (toDict heap rn ic fuel r ig).2)
    ∧ (∀ (fuel : Nat) (self : SResource) (l : List SAttrEntry) (ig : Finset String),
        ig ⊆ (convertEntries heap rn ic fuel self l ig).2)
    ∧ (∀ (fuel : Nat) (self : SResource) (v : SVal) (ig : Finset String),
        ig ⊆ (convertValue heap rn ic fuel self v ig).2)
    ∧ (∀ (fuel : Nat) (self : SResource) (l : List SVal) (ig : Finset String),
        ig ⊆ (convertColl heap rn ic fuel self l ig).2) := by
  refine toDict.mutual_induct heap rn ic
    (fun fuel r ig => ig ⊆ (toDict heap rn ic fuel r ig).2)
    (fun fuel self l ig => ig ⊆ (convertEntries heap rn ic fuel self l ig).2)
    (fun fuel self v ig => ig ⊆ (convertValue heap rn ic fuel self v ig).2)
    (fun fuel self l ig => ig ⊆ (convertColl heap rn ic fuel self l ig).2)
    ?_ ?_ ?_ ?_ ?_ ?_ ?_ ?_ ?_ ?_ ?_ ?_ ?_
  · intro fuel r ignored ig1 h
    simp only [toDict]
    exact (Finset.subset_insert r.id ignored).trans h
  · intro fuel self ig
    simp only [convertEntries]
    exact Finset.Subset.refl ig
  · intro fuel self a rest ig hwo ih
    simp only [convertEntries, hwo, if_true]
    exact ih
  · intro fuel self a rest ig hwo p ihv ihe
    simp only [convertEntries, hwo, Bool.false_eq_true, if_false]
    exact ihv.trans ihe
  · intro fuel self vs ig ih
    simp only [convertValue]
    exact ih
  · intro self i ig value hfind hcond
    simp only [convertValue, hfind]
    rw [if_pos hcond]
  · intro self i ig value hfind hcond fuel ih
    simp only [convertValue, hfind]
    rw [if_pos hcond]
    exact ih
  · intro fuel self i ig value hfind hcond
    simp only [convertValue, hfind]
    rw [if_neg hcond]
  · intro fuel self i ig hfind
    simp only [convertValue, hfind]
    exact Finset.Subset.refl ig
  · intro fuel self s ig
    simp only [convertValue]
    exact Finset.Subset.refl ig
  · intro fuel self ig
    simp only [convertValue]
    exact Finset.Subset.refl ig
  · intro fuel self ig
    simp only [convertColl]
    exact Finset.Subset.refl ig
  · intro fuel self v vs ig p ihv ihl
    simp only [convertColl]
    exact ihv.trans ihl

end OldmanSer

namespace OldmanSer

theorem objIdsEntries_append_str (l : List (String × Json)) (n s : String) :
    objIdsEntries (l ++ [(n, Json.str s)]) = objIdsEntries l := by
  rw [objIdsEntries_append]
  simp [objIdsEntries, objIds]

theorem objIdsEntries_append_types (l : List (String × Json)) (n : String) (ts : List String) :
    objIdsEntries (l ++ [(n, Json.arr (ts.map Json.str))]) = objIdsEntries l := by
  rw [objIdsEntries_append]
  simp [objIdsEntries, objIds, objIdsList_map_str]

theorem serObjIds (heap : List SResource) (rn ic : Bool) :
    (∀ (fuel : Nat) (r : SResource) (ig : Finset String), r.id ∉ ig →
        (objIds (toDict heap rn ic fuel r ig).1).Nodup
        ∧ ∀ x ∈ objIds (toDict heap rn ic fuel r ig).1,
            x ∈ (toDict heap rn ic fuel r ig).2 ∧ x ∉ ig)
    ∧ (∀ (fuel : Nat) (self : SResource) (l : List SAttrEntry) (ig : Finset String),
        (objIdsEntries (convertEntries heap rn ic fuel self l ig).1).Nodup
        ∧ ∀ x ∈ objIdsEntries (convertEntries heap rn ic fuel self l ig).1,
            x ∈ (convertEntries heap rn ic fuel self l ig).2 ∧ x ∉ ig)
    ∧ (∀ (fuel : Nat) (self : SResource) (v : SVal) (ig : Finset String),
        (objIds (convertValue heap rn ic fuel self v ig).1).Nodup
        ∧ ∀ x ∈ objIds (convertValue heap rn ic fuel self v ig).1,
            x ∈ (convertValue heap rn ic fuel self v ig).2 ∧ x ∉ ig)
    ∧ (∀ (fuel : Nat) (self : SResource) (l : List SVal) (ig : Finset String),
        (objIdsList (convertColl heap rn ic fuel self l ig).1).Nodup
        ∧ ∀ x ∈ objIdsList (convertColl heap rn ic fuel self l ig).1,
            x ∈ (convertColl heap rn ic fuel self l ig).2 ∧ x ∉ ig) := by
  refine toDict.mutual_induct heap rn ic
    (fun fuel r ig => r.id ∉ ig →
        (objIds (toDict heap rn ic fuel r ig).1).Nodup
        ∧ ∀ x ∈ objIds (toDict heap rn ic fuel r ig).1,
            x ∈ (toDict heap rn ic fuel r ig).2 ∧ x ∉ ig)
    (fun fuel self l ig =>
        (objIdsEntries (convertEntries heap rn ic fuel self l ig).1).Nodup
        ∧ ∀ x ∈ objIdsEntries (convertEntries heap rn ic fuel self l ig).1,
            x ∈ (convertEntries heap rn ic fuel self l ig).2 ∧ x ∉ ig)
    (fun fuel self v ig =>
        (objIds (convertValue heap rn ic fuel self v ig).1).Nodup
        ∧ ∀ x ∈ objIds (convertValue heap rn ic fuel self v ig).1,
            x ∈ (convertValue heap rn ic fuel self v ig).2 ∧ x ∉ ig)
    (fun fuel self l ig =>
        (objIdsList (convertColl heap rn ic fuel self l ig).1).Nodup
        ∧ ∀ x ∈ objIdsList (convertColl heap rn ic fuel self l ig).1,
            x ∈ (convertColl heap rn ic fuel self l ig).2 ∧ x ∉ ig)
    ?_ ?_ ?_ ?_ ?_ ?_ ?_ ?_ ?_ ?_ ?_ ?_ ?_
  · -- toDict
    intro fuel r ignored ig1 h hrid
    have hgrow : insert r.id ignored ⊆
        (convertEntries heap rn ic fuel r r.attrs (insert r.id ignored)).2 :=
      (serGrow heap rn ic).2.1 fuel r r.attrs (insert r.id ignored)
    simp only [toDict, objIds]
    have hsub : List.Sublist
        (objIdsEntries
          ((if rn = true then
              ((convertEntries heap rn ic fuel r r.attrs (insert r.id ignored)).1.filter
                (fun e => !e.2.isNull))
            else (convertEntries heap rn ic fuel r r.attrs (insert r.id ignored)).1) |>
            (fun e1 => if ¬ OldmanResource.isBlankNode r.id = true
              then e1 ++ [("id", Json.str r.id)] else e1) |>
            (fun e2 => if r.types.length > 0
              then e2 ++ [("types", Json.arr (r.types.map Json.str))] else e2)))
        (objIdsEntries (convertEntries heap rn ic fuel r r.attrs (insert r.id ignored)).1) := by
      by_cases h1 : rn = true <;> by_cases h2 : OldmanResource.isBlankNode r.id = true <;>
        by_cases h3 : r.types.length > 0 <;>
          simp only [h1, h2, h3, if_true, if_false, not_true, not_false_iff,
            Bool.false_eq_true, ite_true, ite_false, not_false_eq_true,
            objIdsEntries_append_str, objIdsEntries_append_types] <;>
          first
          | exact objIdsEntries_filter_sublist _ _
          | exact List.Sublist.refl _
    constructor
    · rw [List.nodup_cons]
      refine ⟨fun hmem => ?_, h.1.sublist hsub⟩
      have := (h.2 r.id (hsub.subset hmem)).2
      exact this (Finset.mem_insert_self r.id ignored)
    · intro x hx
      rcases List.mem_cons.mp hx with rfl | hmem
      · exact ⟨hgrow (Finset.mem_insert_self r.id ignored), hrid⟩
      · rcases h.2 x (hsub.subset hmem) with ⟨hin, hnotin⟩
        exact ⟨hin, fun hc => hnotin (Finset.mem_insert_of_mem hc)⟩
  · -- entries nil
    intro fuel self ig
    simp only [convertEntries, objIdsEntries]
    exact ⟨List.nodup_nil, by intro x hx; cases hx⟩
  · -- entries cons, write-only
    intro fuel self a rest ig hwo ih
    simp only [convertEntries, hwo, if_true]
    exact ih
  · -- entries cons
    intro fuel self a rest ig hwo p ihv ihe
    have hgrow1 : ig ⊆ (convertValue heap rn ic fuel self a.value ig).2 :=
      (serGrow heap rn ic).2.2.1 fuel self a.value ig
    have hgrow2 : (convertValue heap rn ic fuel self a.value ig).2 ⊆
        (convertEntries heap rn ic fuel self rest
          (convertValue heap rn ic fuel self a.value ig).2).2 :=
      (serGrow heap rn ic).2.1 fuel self rest _
    simp only [convertEntries, hwo, Bool.false_eq_true, if_false, objIdsEntries]
    constructor
    · refine List.Nodup.append ihv.1 ihe.1 (List.disjoint_left.mpr ?_)
      intro x hxp hxq
      exact (ihe.2 x hxq).2 (ihv.2 x hxp).1
    · intro x hx
      rcases List.mem_append.mp hx with hxp | hxq
      · exact ⟨hgrow2 (ihv.2 x hxp).1, (ihv.2 x hxp).2⟩
      · exact ⟨(ihe.2 x hxq).1, fun hc => (ihe.2 x hxq).2 (hgrow1 hc)⟩
  · -- value coll
    intro fuel self vs ig ih
    simp only [convertValue, objIds]
    exact ih
  · -- value res, fuel 0, inline branch
    intro self i ig value hfind hcond
    simp only [convertValue, hfind]
    rw [if_pos hcond]
    exact ⟨List.nodup_nil, by intro x hx; cases hx⟩
  · -- value res, fuel+1, inline branch
    intro self i ig value hfind hcond fuel ih
    have hvid : value.id = i := by
      have := List.find?_some hfind
      simpa using this
    have hid : value.id ∉ ig := by rw [hvid]; exact hcond.1
    have ih2 := ih hid
    simp only [convertValue, hfind]
    rw [if_pos hcond]
    have hids : objIds (if ic = true ∧ value.context ≠ self.context
        then addContext (toDict heap rn ic fuel value ig).1 value.context
        else (toDict heap rn ic fuel value ig).1) =
        objIds (toDict heap rn ic fuel value ig).1 := by
      by_cases hctx : ic = true ∧ value.context ≠ self.context
      · rw [if_pos hctx, objIds_addContext]
      · rw [if_neg hctx]
    constructor
    · rw [hids]; exact ih2.1
    · rw [hids]; exact ih2.2
  · -- value res, no inline
    intro fuel self i ig value hfind hcond
    simp only [convertValue, hfind]
    rw [if_neg hcond]
    exact ⟨List.nodup_nil, by intro x hx; cases hx⟩
  · -- value res, dangling
    intro fuel self i ig hfind
    simp only [convertValue, hfind, objIds]
    exact ⟨List.nodup_nil, by intro x hx; cases hx⟩
  · -- value lit
    intro fuel self s ig
    simp only [convertValue, objIds]
    exact ⟨List.nodup_nil, by intro x hx; cases hx⟩
  · -- value none
    intro fuel self ig
    simp only [convertValue, objIds]
    exact ⟨List.nodup_nil, by intro x hx; cases hx⟩
  · -- coll nil
    intro fuel self ig
    simp only [convertColl, objIdsList]
    exact ⟨List.nodup_nil, by intro x hx; cases hx⟩
  · -- coll cons
    intro fuel self v vs ig p ihv ihl
    have hgrow1 : ig ⊆ (convertValue heap rn ic fuel self v ig).2 :=
      (serGrow heap rn ic).2.2.1 fuel self v ig
    have hgrow2 : (convertValue heap rn ic fuel self v ig).2 ⊆
        (convertColl heap rn ic fuel self vs
          (convertValue heap rn ic fuel self v ig).2).2 :=
      (serGrow heap rn ic).2.2.2 fuel self vs _
    simp only [convertColl, objIdsList]
    constructor
    · refine List.Nodup.append ihv.1 ihl.1 (List.disjoint_left.mpr ?_)
      intro x hxp hxq
      exact (ihl.2 x hxq).2 (ihv.2 x hxp).1
    · intro x hx
      rcases List.mem_append.mp hx with hxp | hxq
      · exact ⟨hgrow2 (ihv.2 x hxp).1, (ihv.2 x hxp).2⟩
      · exact ⟨(ihl.2 x hxq).1, fun hc => (ihl.2 x hxq).2 (hgrow1 hc)⟩

end OldmanSer

namespace OldmanSer

theorem heapIds_mem_of_find (heap : List SResource) (i : String) (value : SResource)
    (hfind : List.find? (fun r => decide (r.id = i)) heap = some value) :
    i ∈ heapIds heap := by
  have hvid : value.id = i := by
    have := List.find?_some hfind
    simpa using this
  have hmem : value ∈ heap := List.mem_of_find?_eq_some hfind
  rw [heapIds, List.mem_toFinset, ← hvid]
  exact List.mem_map_of_mem (fun r => r.id) hmem

theorem serStable (heap : List SResource) (rn ic : Bool) :
    (∀ (fuel : Nat) (r : SResource) (ig : Finset String),
        (heapIds heap \ insert r.id ig).card ≤ fuel →
          toDict heap rn ic (fuel + 1) r ig = toDict heap rn ic fuel r ig)
    ∧ (∀ (fuel : Nat) (self : SResource) (l : List SAttrEntry) (ig : Finset String),
        (heapIds heap \ ig).card ≤ fuel →
          convertEntries heap rn ic (fuel + 1) self l ig
            = convertEntries heap rn ic fuel self l ig)
    ∧ (∀ (fuel : Nat) (self : SResource) (v : SVal) (ig : Finset String),
        (heapIds heap \ ig).card ≤ fuel →
          convertValue heap rn ic (fuel + 1) self v ig
            = convertValue heap rn ic fuel self v ig)
    ∧ (∀ (fuel : Nat) (self : SResource) (l : List SVal) (ig : Finset String),
        (heapIds heap \ ig).card ≤ fuel →
          convertColl heap rn ic (fuel + 1) self l ig
            = convertColl heap rn ic fuel self l ig) := by
  refine toDict.mutual_induct heap rn ic
    (fun fuel r ig => (heapIds heap \ insert r.id ig).card ≤ fuel →
        toDict heap rn ic (fuel + 1) r ig = toDict heap rn ic fuel r ig)
    (fun fuel self l ig => (heapIds heap \ ig).card ≤ fuel →
        convertEntries heap rn ic (fuel + 1) self l ig
          = convertEntries heap rn ic fuel self l ig)
    (fun fuel self v ig => (heapIds heap \ ig).card ≤ fuel →
        convertValue heap rn ic (fuel + 1) self v ig
          = convertValue heap rn ic fuel self v ig)
    (fun fuel self l ig => (heapIds heap \ ig).card ≤ fuel →
        convertColl heap rn ic (fuel + 1) self l ig
          = convertColl heap rn ic fuel self l ig)
    ?_ ?_ ?_ ?_ ?_ ?_ ?_ ?_ ?_ ?_ ?_ ?_ ?_
  · -- toDict
    intro fuel r ignored ig1 h hcard
    have h2 : convertEntries heap rn ic (fuel + 1) r r.attrs (insert r.id ignored)
        = convertEntries heap rn ic fuel r r.attrs (insert r.id ignored) := h hcard
    simp only [toDict]
    rw [h2]
  · -- entries nil
    intro fuel self ig _
    simp only [convertEntries]
  · -- entries cons, write-only
    intro fuel self a rest ig hwo ih hcard
    simp only [convertEntries, hwo, if_true]
    exact ih hcard
  · -- entries cons
    intro fuel self a rest ig hwo p ihv ihe hcard
    have hv : convertValue heap rn ic (fuel + 1) self a.value ig
        = convertValue heap rn ic fuel self a.value ig := ihv hcard
    have hgrow : ig ⊆ (convertValue heap rn ic fuel self a.value ig).2 :=
      (serGrow heap rn ic).2.2.1 fuel self a.value ig
    have hcard2 : (heapIds heap \ (convertValue heap rn ic fuel self a.value ig).2).card
        ≤ fuel :=
      le_trans (Finset.card_le_card
        (Finset.sdiff_subset_sdiff (Finset.Subset.refl _) hgrow)) hcard
    have he : convertEntries heap rn ic (fuel + 1) self rest
          (convertValue heap rn ic fuel self a.value ig).2
        = convertEntries heap rn ic fuel self rest
          (convertValue heap rn ic fuel self a.value ig).2 := ihe hcard2
    simp only [convertEntries, hwo, Bool.false_eq_true, if_false]
    rw [hv, he]
  · -- value coll
    intro fuel self vs ig ih hcard
    have hc := ih hcard
    simp only [convertValue]
    rw [hc]
  · -- value res, fuel 0, inline branch
    intro self i ig value hfind hcond hcard
    exfalso
    have hpos : 0 < (heapIds heap \ ig).card :=
      Finset.card_pos.mpr
        ⟨i, Finset.mem_sdiff.mpr ⟨heapIds_mem_of_find heap i value hfind, hcond.1⟩⟩
    omega
  · -- value res, fuel+1, inline branch
    intro self i ig value hfind hcond fuel ih hcard
    have hvid : value.id = i := by
      have := List.find?_some hfind
      simpa using this
    have hmemS : i ∈ heapIds heap \ ig :=
      Finset.mem_sdiff.mpr ⟨heapIds_mem_of_find heap i value hfind, hcond.1⟩
    have hcard2 : (heapIds heap \ insert value.id ig).card ≤ fuel := by
      rw [hvid, Finset.sdiff_insert, Finset.card_erase_of_mem hmemS]
      omega
    have hd : toDict heap rn ic (fuel + 1) value ig = toDict heap rn ic fuel value ig :=
      ih hcard2
    simp only [convertValue, hfind]
    rw [if_pos hcond, if_pos hcond]
    rw [hd]
  · -- value res, no inline
    intro fuel self i ig value hfind hcond _
    simp only [convertValue, hfind]
    rw [if_neg hcond, if_neg hcond]
  · -- value res, dangling
    intro fuel self i ig hfind _
    simp only [convertValue, hfind]
  · -- value lit
    intro fuel self s ig _
    simp only [convertValue]
  · -- value none
    intro fuel self ig _
    simp only [convertValue]
  · -- coll nil
    intro fuel self ig _
    simp only [convertColl]
  · -- coll cons
    intro fuel self v vs ig p ihv ihl hcard
    have hv : convertValue heap rn ic (fuel + 1) self v ig
        = convertValue heap rn ic fuel self v ig := ihv hcard
    have hgrow : ig ⊆ (convertValue heap rn ic fuel self v ig).2 :=
      (serGrow heap rn ic).2.2.1 fuel self v ig
    have hcard2 : (heapIds heap \ (convertValue heap rn ic fuel self v ig).2).card ≤ fuel :=
      le_trans (Finset.card_le_card
        (Finset.sdiff_subset_sdiff (Finset.Subset.refl _) hgrow)) hcard
    have hl : convertColl heap rn ic (fuel + 1) self vs
          (convertValue heap rn ic fuel self v ig).2
        = convertColl heap rn ic fuel self vs
          (convertValue heap rn ic fuel self v ig).2 := ihl hcard2
    simp only [convertColl]
    rw [hv, hl]

end OldmanSer

namespace OldmanSer

/-- Claim C5: cycle safety of `Resource.to_dict`. (1) Termination: on every
heap — cyclic object graphs included — the serialisation stabilises once the
fuel reaches the number of resources in the heap, i.e. the unbounded Python
recursion is well-defined; (2) every resource is inlined as a nested dict at
most once (the source ids of the `obj` nodes of the output are
duplicate-free); (3) a mention of an already-visited resource (its IRI in
`ignored_iris`) is rendered as its IRI string, not a nested dict. -/
theorem to_dict_cycle_safe (heap : List SResource) (rn ic : Bool) (r : SResource) :
    (∀ fuel : Nat, heapBound heap ≤ fuel →
        toDict heap rn ic fuel r ∅ = toDict heap rn ic (heapBound heap) r ∅)
    ∧ (∀ fuel : Nat, (objIds (toDict heap rn ic fuel r ∅).1).Nodup)
    ∧ (∀ (fuel : Nat) (self : SResource) (i : String) (ig : Finset String), i ∈ ig →
        convertValue heap rn ic fuel self (SVal.res i) ig = (Json.str i, ig)) := by
  refine ⟨?_, ?_, ?_⟩
  · have hstep : ∀ f : Nat, heapBound heap ≤ f →
        toDict heap rn ic (f + 1) r ∅ = toDict heap rn ic f r ∅ := by
      intro f hf
      refine (serStable heap rn ic).1 f r ∅ (le_trans ?_ hf)
      exact Finset.card_le_card (Finset.sdiff_subset)
    have key : ∀ k : Nat, toDict heap rn ic (heapBound heap + k) r ∅
        = toDict heap rn ic (heapBound heap) r ∅ := by
      intro k
      induction k with
      | zero => rfl
      | succ k ih =>
        rw [show heapBound heap + (k + 1) = (heapBound heap + k) + 1 from rfl,
          hstep (heapBound heap + k) (Nat.le_add_right _ _), ih]
    intro fuel hf
    obtain ⟨k, rfl⟩ : ∃ k, fuel = heapBound heap + k := ⟨fuel - heapBound heap, by omega⟩
    exact key k
  · intro fuel
    exact ((serObjIds heap rn ic).1 fuel r ∅ (Finset.not_mem_empty r.id)).1
  · intro fuel self i ig hig
    cases hf : List.find? (fun r => decide (r.id = i)) heap with
    | none => simp only [convertValue, hf]
    | some value =>
      simp only [convertValue, hf]
      rw [if_neg (fun hc => hc.1 hig)]

/-- Witness for `to_dict_cycle_safe`: on the two-element cyclic heap of blank
nodes `x1 ↔ x2`, serialisation from `x1` stabilises at fuel 2, inlines each
node once, and a repeated mention of `x2` collapses to its IRI string. -/
theorem to_dict_cycle_safe_witness :
    heapBound cycHeapFx ≤ 5
    ∧ toDict cycHeapFx true false 5 cyc1Fx ∅
        = toDict cycHeapFx true false (heapBound cycHeapFx) cyc1Fx ∅
    ∧ (objIds (toDict cycHeapFx true false 5 cyc1Fx ∅).1).Nodup
    ∧ "http://localhost/.well-known/genid/x2" ∈
        ({"http://localhost/.well-known/genid/x2"} : Finset String)
    ∧ convertValue cycHeapFx true false 3 cyc1Fx
          (SVal.res "http://localhost/.well-known/genid/x2")
          {"http://localhost/.well-known/genid/x2"}
        = (Json.str "http://localhost/.well-known/genid/x2",
           {"http://localhost/.well-known/genid/x2"}) := by
  refine ⟨by decide, (to_dict_cycle_safe cycHeapFx true false cyc1Fx).1 5 (by decide),
    (to_dict_cycle_safe cycHeapFx true false cyc1Fx).2.1 5, by decide, ?_⟩
  exact (to_dict_cycle_safe cycHeapFx true false cyc1Fx).2.2 3 cyc1Fx
    "http://localhost/.well-known/genid/x2" {"http://localhost/.well-known/genid/x2"}
    (by decide)

end OldmanSer
